/-
Verification of the BeamStrctSim structural-mechanics engine.

This file gives a shallow embedding, over exact rational arithmetic, of the
engine's pure functions:
  - calculateSectionProperties  (second moment of area I and section area)
  - calculateBeamPhysics / calculateBeamStats  (closed-form field solver, mesh
    statistics)
  - calculateAnalyticalDiagrams  (reaction solver and numeric V/M sweep)
  - getPolynomial / generateDetailedSteps  (piecewise polynomial builder)
  - calculateBearingPhysics  (Stribeck-style bearing load distribution)
JavaScript floating-point numbers are modelled by ℚ; the transcendental
library functions used by the bearing module (cos, sqrt, fractional powers)
are passed in as explicit function parameters, since the claims under study
only constrain the rational structure around them.  Theorems then settle the
spec's testable properties against these definitions.
-/
import Mathlib

namespace BeamSim

/-- Boundary-condition tag of a beam (types.ts, BeamType). -/
inductive BeamType where
  | cantilever
  | simplySupported
  | overhanging
deriving DecidableEq

/-- Cross-section shape tag (types.ts, SectionType). -/
inductive SectionType where
  | rectangular
  | circular
  | ibeam
deriving DecidableEq

/-- Peak side of a triangular load (types.ts, LoadDefinition.peak). -/
inductive PeakSide where
  | left
  | right
deriving DecidableEq

/-- A load primitive (types.ts, LoadDefinition).  The source uses one record
with optional fields discriminated by a type tag in {P, U, T, M}; the tagged
variants here carry exactly the fields each branch of the source reads.  The
display-only id string is omitted. -/
inductive LoadDefinition where
  | P (val x : ℚ)
  | U (val x1 x2 : ℚ)
  | T (val x1 x2 : ℚ) (peak : PeakSide)
  | M (val x : ℚ)
deriving DecidableEq

/-- Beam-side simulation configuration (types.ts, SimulationParams).  The
bearing-only fields (mode, bearing) are carried by BearingParams below. -/
structure SimulationParams where
  length : ℚ
  height : ℚ
  force : ℚ
  youngsModulus : ℚ
  yieldStrength : ℚ
  meshDensityX : ℕ
  meshDensityY : ℕ
  deformationScale : ℚ
  beamType : BeamType
  loadPosition : ℚ
  supportA : ℚ
  supportB : ℚ
  customLoads : List LoadDefinition
  sectionType : SectionType
  sectionWidth : ℚ
  flangeWidth : ℚ
  flangeThickness : ℚ
  webThickness : ℚ
deriving DecidableEq

/-- The double-precision value of JavaScript's Math.PI, as a rational.  Only
the circular-section branch uses it, and no claim exercises that branch. -/
def mathPI : ℚ := 3.141592653589793

/-- calculateSectionProperties: moment of inertia I and cross-section area
from the section type and dimensions.  Returns (I, area). -/
def calculateSectionProperties (params : SimulationParams) : ℚ × ℚ :=
  let H := params.height
  match params.sectionType with
  | .rectangular => ((params.sectionWidth * H ^ 3) / 12, params.sectionWidth * H)
  | .circular => ((mathPI * H ^ 4) / 64, mathPI * (H / 2) ^ 2)
  | .ibeam =>
      let innerH := H - 2 * params.flangeThickness
      let innerB := params.flangeWidth - params.webThickness
      if innerH > 0 ∧ innerB > 0 then
        (((params.flangeWidth * H ^ 3) - (innerB * innerH ^ 3)) / 12,
         (2 * params.flangeWidth * params.flangeThickness) + (params.webThickness * innerH))
      else
        ((params.flangeWidth * H ^ 3) / 12, 0)

/-- A mesh node (types.ts, NodePoint).  x, y are the undeformed coordinates
(y measured from the neutral axis), dx, dy the displayed (exaggerated)
coordinates, stress the bending stress.  The display-only id string is
omitted. -/
structure NodePoint where
  x : ℚ
  y : ℚ
  dx : ℚ
  dy : ℚ
  stress : ℚ
deriving DecidableEq

/-- A quadrilateral mesh cell (types.ts, MeshElement).  The four corner nodes
are kept as a list, matching the source array; the id string is omitted. -/
structure MeshElement where
  nodes : List NodePoint
  avgStress : ℚ
deriving DecidableEq

/-- Load position clamped into the beam (calculateBeamPhysics's safeA). -/
def safeA (params : SimulationParams) : ℚ :=
  max 0 (min params.loadPosition params.length)

/-- The deformation exaggeration factor: the source's
"deformationScale || 1", i.e. a zero (falsy) scale falls back to 1. -/
def scaleOf (params : SimulationParams) : ℚ :=
  if params.deformationScale = 0 then 1 else params.deformationScale

/-- The (v, theta, M) closed-form block of getNode: deflection, slope and
bending moment at mesh node (i, j), per boundary condition (the source
computes these into three mutable locals before assembling the node). -/
def nodeVTM (params : SimulationParams) (i j : ℕ) : ℚ × ℚ × ℚ :=
  let L := params.length
  let h := params.height
  let P := params.force
  let E := params.youngsModulus
  let I := (calculateSectionProperties params).1
  let a := safeA params
  let b := L - a
  let dxStep := L / params.meshDensityX
  let dyStep := h / params.meshDensityY
  let xOriginal := i * dxStep
  let _yOriginal := j * dyStep - h / 2
  match params.beamType with
    | .cantilever =>
        if xOriginal ≤ a then
          ((P * xOriginal ^ 2 * (3 * a - xOriginal)) / (6 * E * I),
           (P * xOriginal * (2 * a - xOriginal)) / (2 * E * I),
           P * (xOriginal - a))
        else
          let v_a := (P * a ^ 3) / (3 * E * I)
          let theta_a := (P * a ^ 2) / (2 * E * I)
          (v_a + theta_a * (xOriginal - a), theta_a, 0)
    | .simplySupported =>
        if xOriginal ≤ a then
          ((P * b * xOriginal) / (6 * L * E * I) * (L ^ 2 - b ^ 2 - xOriginal ^ 2),
           (P * b) / (6 * L * E * I) * (L ^ 2 - b ^ 2 - 3 * xOriginal ^ 2),
           (P * b * xOriginal) / L)
        else
          let xFromRight := L - xOriginal
          let term := L ^ 2 - a ^ 2 - 3 * xFromRight ^ 2
          ((P * a * xFromRight) / (6 * L * E * I) * (L ^ 2 - a ^ 2 - xFromRight ^ 2),
           -((P * a) / (6 * L * E * I) * term),
           (P * a * (L - xOriginal)) / L)
    | .overhanging => (0, 0, 0)

/-- calculateBeamPhysics's inner getNode: deflection, slope, moment via
nodeVTM, plus displaced coordinates and bending stress at mesh node (i, j). -/
def getNode (params : SimulationParams) (i j : ℕ) : NodePoint :=
  let L := params.length
  let h := params.height
  let I := (calculateSectionProperties params).1
  let dxStep := L / params.meshDensityX
  let dyStep := h / params.meshDensityY
  let scale := scaleOf params
  let xOriginal := i * dxStep
  let yOriginal := j * dyStep - h / 2
  let vtm := nodeVTM params i j
  let v := vtm.1
  let theta := vtm.2.1
  let M := vtm.2.2
  let u := -yOriginal * theta
  { x := xOriginal
    y := yOriginal
    dx := xOriginal + u * scale
    dy := yOriginal + v * scale
    stress := -(M * yOriginal) / I }

/-- One quadrilateral cell of the visualization mesh, from its (i, j) grid
index (the loop body of calculateBeamPhysics). -/
def mkElement (params : SimulationParams) (ij : ℕ × ℕ) : MeshElement :=
  let p1 := getNode params ij.1 ij.2
  let p2 := getNode params (ij.1 + 1) ij.2
  let p3 := getNode params (ij.1 + 1) (ij.2 + 1)
  let p4 := getNode params ij.1 (ij.2 + 1)
  { nodes := [p1, p2, p3, p4]
    avgStress := (p1.stress + p2.stress + p3.stress + p4.stress) / 4 }

/-- The (i, j) traversal order of the mesh loop: i outer, j inner. -/
def meshIndices (params : SimulationParams) : List (ℕ × ℕ) :=
  (List.range params.meshDensityX).flatMap fun i =>
    (List.range params.meshDensityY).map fun j => (i, j)

/-- calculateBeamPhysics: the full visualization mesh. -/
def calculateBeamPhysics (params : SimulationParams) : List MeshElement :=
  (meshIndices params).map (mkElement params)

/-- One node's update of the running (maxStress, maxDeflection) pair in
calculateBeamStats. -/
def statsNodeStep (acc : ℚ × ℚ) (n : NodePoint) : ℚ × ℚ :=
  let stressAbs := |n.stress|
  let acc1 := if stressAbs > acc.1 then stressAbs else acc.1
  let deflection := |n.dy - n.y|
  let acc2 := if deflection > acc.2 then deflection else acc.2
  (acc1, acc2)

/-- calculateBeamStats: maximum |stress| and maximum |dy - y| over all nodes
of all elements, each starting from 0.  Returns (maxStress, maxDeflection). -/
def calculateBeamStats (elements : List MeshElement) : ℚ × ℚ :=
  elements.foldl (fun acc el => el.nodes.foldl statsNodeStep acc) (0, 0)

/-- Support reactions (the reactions record of DiagramData). -/
structure Reactions where
  Ra : ℚ
  Rb : ℚ
  Ma : ℚ
deriving DecidableEq

/-- Support positions resolved by calculateAnalyticalDiagrams: (0, 0) for a
cantilever, (0, L) for simply supported, (supportA, supportB) for
overhanging. -/
def resolvedSupports (params : SimulationParams) : ℚ × ℚ :=
  match params.beamType with
  | .cantilever => (0, 0)
  | .simplySupported => (0, params.length)
  | .overhanging => (params.supportA, params.supportB)

/-- The resolved load list: customLoads when non-empty, otherwise the single
synthesized base point load with magnitude |force| at loadPosition.  This
resolution appears verbatim in calculateAnalyticalDiagrams, getPolynomial and
generateDetailedSteps. -/
def resolvedLoads (params : SimulationParams) : List LoadDefinition :=
  if params.customLoads = [] then [.P |params.force| params.loadPosition]
  else params.customLoads

/-- One load's update of the running (sumFy, sumMa) pair of the reaction
solver, moments taken about position supA. -/
def accStep (supA : ℚ) (acc : ℚ × ℚ) (l : LoadDefinition) : ℚ × ℚ :=
  match l with
  | .P val x => (acc.1 - val, acc.2 - val * (x - supA))
  | .M val _ => (acc.1, acc.2 + val)
  | .U val x1 x2 =>
      let f := val * (x2 - x1)
      (acc.1 - f, acc.2 - f * ((x1 + x2) / 2 - supA))
  | .T val x1 x2 peak =>
      let f := 1 / 2 * val * (x2 - x1)
      let d := if peak = .right then (2 / 3) * (x2 - x1) else (1 / 3) * (x2 - x1)
      (acc.1 - f, acc.2 - f * (x1 + d - supA))

/-- The running (sumFy, sumMa) accumulation of the reaction solver, moments
taken about position supA. -/
def loadAccum (supA : ℚ) (loads : List LoadDefinition) : ℚ × ℚ :=
  loads.foldl (accStep supA) (0, 0)

/-- The reaction solver section of calculateAnalyticalDiagrams. -/
def calcReactions (params : SimulationParams) : Reactions :=
  let sup := resolvedSupports params
  let acc := loadAccum sup.1 (resolvedLoads params)
  let sumFy := acc.1
  let sumMa := acc.2
  match params.beamType with
  | .cantilever => { Ra := -sumFy, Rb := 0, Ma := -sumMa }
  | _ =>
      let span0 := sup.2 - sup.1
      let span := if |span0| < 1 / 1000000 then 1 else span0
      let rb := -sumMa / span
      { Ra := -sumFy - rb, Rb := rb, Ma := 0 }

/-- checkStep: whether sample station x is the one that picks up a
discontinuity located at target, for step dx. -/
abbrev checkStep (x target dx : ℚ) : Prop := target ≤ x ∧ x < target + dx

/-- Number of integration steps of the numeric sweep (the source's n). -/
def sweepN : ℕ := 400

/-- Step size of the numeric sweep. -/
def sweepDx (params : SimulationParams) : ℚ := params.length / sweepN

/-- One loop iteration of the numeric V/M sweep: station i maps x = i*dx,
applies reactions and point loads to V, subtracts the local distributed
intensity times dx, integrates M by V*dx, and applies moment jumps.  The
state is the running (V, M) pair. -/
def sweepStep (params : SimulationParams) (r : Reactions) (i : ℕ) (s : ℚ × ℚ) : ℚ × ℚ :=
  let dx := sweepDx params
  let sup := resolvedSupports params
  let loads := resolvedLoads params
  let x : ℚ := i * dx
  let V := s.1
  let V :=
    match params.beamType with
    | .cantilever => if checkStep x 0 dx then V + r.Ra else V
    | _ =>
        let V1 := if checkStep x sup.1 dx then V + r.Ra else V
        if checkStep x sup.2 dx then V1 + r.Rb else V1
  let V := loads.foldl
    (fun v l =>
      match l with
      | .P val lx => if checkStep x lx dx then v - val else v
      | _ => v) V
  let q := loads.foldl
    (fun q l =>
      match l with
      | .U val x1 x2 => if x1 ≤ x ∧ x ≤ x2 then q + val else q
      | .T val x1 x2 peak =>
          if x1 ≤ x ∧ x ≤ x2 then
            let rr := (x - x1) / (x2 - x1)
            q + (if peak = .right then rr else 1 - rr) * val
          else q
      | _ => q) 0
  let V := V - q * dx
  let M := s.2 + V * dx
  let M :=
    match params.beamType with
    | .cantilever => if checkStep x 0 dx then M + -r.Ma else M
    | _ => M
  let M := loads.foldl
    (fun m l =>
      match l with
      | .M val lx => if checkStep x lx dx then m - val else m
      | _ => m) M
  (V, M)

/-- The sweep state after processing stations 0 .. i-1 (so sweepState 0 is
the initial (0, 0) state and sweepState (i+1) the state whose V, M are pushed
at station i). -/
def sweepState (params : SimulationParams) (r : Reactions) : ℕ → ℚ × ℚ
  | 0 => (0, 0)
  | i + 1 => sweepStep params r i (sweepState params r i)

/-- The output record of calculateAnalyticalDiagrams. -/
structure DiagramData where
  xs : List ℚ
  Vs : List ℚ
  Ms : List ℚ
  reactions : Reactions
deriving DecidableEq

/-- calculateAnalyticalDiagrams: reactions plus the numeric V/M sweep over
sweepN + 1 equally spaced stations. -/
def calculateAnalyticalDiagrams (params : SimulationParams) : DiagramData :=
  let r := calcReactions params
  { xs := (List.range (sweepN + 1)).map fun i => (i : ℚ) * sweepDx params
    Vs := (List.range (sweepN + 1)).map fun i => (sweepState params r (i + 1)).1
    Ms := (List.range (sweepN + 1)).map fun i => (sweepState params r (i + 1)).2
    reactions := r }

/-- Polynomial coefficients of one piecewise segment (the PolyCoeffs record):
M(x) = m3 x^3 + m2 x^2 + m1 x + m0 and V(x) = v2 x^2 + v1 x + v0. -/
structure PolyCoeffs where
  m3 : ℚ := 0
  m2 : ℚ := 0
  m1 : ℚ := 0
  m0 : ℚ := 0
  v2 : ℚ := 0
  v1 : ℚ := 0
  v0 : ℚ := 0
deriving DecidableEq

/-- Coefficientwise sum; getPolynomial's repeated "c.f += ..." mutations are
modelled as adding one delta record per contribution. -/
def polyAdd (c d : PolyCoeffs) : PolyCoeffs :=
  { m3 := c.m3 + d.m3, m2 := c.m2 + d.m2, m1 := c.m1 + d.m1, m0 := c.m0 + d.m0,
    v2 := c.v2 + d.v2, v1 := c.v1 + d.v1, v0 := c.v0 + d.v0 }

/-- Value of the shear polynomial V at x. -/
def evalV (c : PolyCoeffs) (x : ℚ) : ℚ := c.v2 * x ^ 2 + c.v1 * x + c.v0

/-- Value of the moment polynomial M at x. -/
def evalM (c : PolyCoeffs) (x : ℚ) : ℚ := c.m3 * x ^ 3 + c.m2 * x ^ 2 + c.m1 * x + c.m0

/-- Support positions used inside getPolynomial: (supportA, supportB) for an
overhanging beam, (0, length) otherwise. -/
def polySupports (params : SimulationParams) : ℚ × ℚ :=
  match params.beamType with
  | .overhanging => (params.supportA, params.supportB)
  | _ => (0, params.length)

/-- The reactions' contribution to a segment's coefficients (the first block
of getPolynomial).  For a cantilever, Ra and the wall moment act
unconditionally at x = 0; otherwise each support contributes once its
position is ≤ xA. -/
def reactionCoeffs (xA : ℚ) (params : SimulationParams) (r : Reactions) : PolyCoeffs :=
  match params.beamType with
  | .cantilever => { v0 := r.Ra, m1 := r.Ra, m0 := -r.Ma }
  | _ =>
      let sup := polySupports params
      polyAdd
        (if sup.1 ≤ xA then { v0 := r.Ra, m1 := r.Ra, m0 := -(r.Ra * sup.1) } else {})
        (if sup.2 ≤ xA then { v0 := r.Rb, m1 := r.Rb, m0 := -(r.Rb * sup.2) } else {})

/-- One load's contribution to the coefficients of the segment [xA, xB] (the
loads.forEach block of getPolynomial). -/
def loadPolyDelta (xA xB : ℚ) (l : LoadDefinition) : PolyCoeffs :=
  match l with
  | .P val x =>
      if x ≤ xA then { v0 := -val, m1 := -val, m0 := val * x } else {}
  | .M val x =>
      if x ≤ xA then { m0 := -val } else {}
  | .U val x1 x2 =>
      if x2 ≤ xA then
        let F := val * (x2 - x1)
        let cent := (x1 + x2) / 2
        { v0 := -F, m1 := -F, m0 := F * cent }
      else if x1 ≤ xA ∧ x2 ≥ xB then
        { v1 := -val, v0 := val * x1,
          m2 := -(1 / 2 * val), m1 := val * x1, m0 := -(1 / 2 * val * x1 * x1) }
      else {}
  | .T val x1 x2 peak =>
      if x2 ≤ xA then
        let F := 1 / 2 * val * (x2 - x1)
        let dist := if peak = .right then (x2 - x1) / 3 else 2 * (x2 - x1) / 3
        let cent := x2 - dist
        { v0 := -F, m1 := -F, m0 := F * cent }
      else if x1 ≤ xA ∧ x2 ≥ xB then
        let LL := x2 - x1
        if peak = .right then
          let k := val / (6 * LL)
          let kv := val / (2 * LL)
          { m3 := -k, m2 := 3 * k * x1, m1 := -(3 * k * x1 * x1), m0 := k * x1 * x1 * x1,
            v2 := -kv, v1 := 2 * kv * x1, v0 := -(kv * x1 * x1) }
        else
          let k := val / (6 * LL)
          let kv := val / (2 * LL)
          { m3 := k, m2 := -(1 / 2 * val) - 3 * k * x1, m1 := val * x1 + 3 * k * x1 * x1,
            m0 := -(1 / 2 * val * x1 * x1) - k * x1 * x1 * x1,
            v2 := kv, v1 := -val - 2 * kv * x1, v0 := val * x1 + kv * x1 * x1 }
      else {}

/-- getPolynomial: exact V and M polynomial coefficients on segment [xA, xB],
accumulated from the reactions and every load. -/
def getPolynomial (xA xB : ℚ) (params : SimulationParams) (r : Reactions) : PolyCoeffs :=
  (resolvedLoads params).foldl (fun c l => polyAdd c (loadPolyDelta xA xB l))
    (reactionCoeffs xA params r)

/-- One entry of generateDetailedSteps' output: the segment bounds and its
polynomial.  The source additionally renders eq / int HTML strings from the
same coefficients via formatPoly; only the data they render is kept. -/
structure StepResult where
  xA : ℚ
  xB : ℚ
  poly : PolyCoeffs
deriving DecidableEq

/-- The raw split-point list of generateDetailedSteps: beam ends, support
positions for an overhanging beam, and every load discontinuity point, in
push order, before de-duplication and sorting. -/
def buildPts (params : SimulationParams) : List ℚ :=
  [0, params.length]
    ++ (match params.beamType with
        | .overhanging => [params.supportA, params.supportB]
        | _ => [])
    ++ (resolvedLoads params).flatMap
        (fun l =>
          match l with
          | .P _ x => [x]
          | .M _ x => [x]
          | .U _ x1 x2 => [x1, x2]
          | .T _ x1 x2 _ => [x1, x2])

/-- The split points de-duplicated and sorted ascending (the source's
[...new Set(pts)].sort((a,b) => a-b); the dedup keeps each value once and the
subsequent sort makes the first-kept/last-kept difference immaterial). -/
def sortedPts (params : SimulationParams) : List ℚ :=
  (buildPts params).dedup.insertionSort (fun a b => a ≤ b)

/-- generateDetailedSteps: one StepResult per adjacent pair of split points,
skipping pairs closer than 0.01. -/
def generateDetailedSteps (params : SimulationParams) (r : Reactions) : List StepResult :=
  ((sortedPts params).zip (sortedPts params).tail).filterMap fun q =>
    if |q.1 - q.2| < 1 / 100 then none
    else some { xA := q.1, xB := q.2, poly := getPolynomial q.1 q.2 params r }

/-- Bearing configuration (types.ts, BearingParams). -/
structure BearingParams where
  outerRadius : ℚ
  innerRadius : ℚ
  ballCount : ℕ
  radialLoad : ℚ
  rotationSpeed : ℚ
  contactAngle : ℚ
deriving DecidableEq

/-- One rolling element's output record (BearingElement).  All angles are
measured in units of π (the source's radian value divided by π), so the
load-vector angle 3π/2 is the rational 3/2 and the load-zone threshold π/2
is 1/2. -/
structure BearingElement where
  angle : ℚ
  load : ℚ
  maxStress : ℚ
  deformation : ℚ
  x : ℚ
  y : ℚ
  radius : ℚ

/-- The transcendental library functions used by calculateBearingPhysics,
passed in as explicit parameters (their arguments are angles in units of π or
plain rationals):
  cosPow15 ψ models Math.pow(Math.cos(π*ψ), 1.5),
  sqrtQ models Math.sqrt, powTwoThirds models Math.pow(·, 2/3),
  cosQ θ models Math.cos(π*θ) and sinQ θ models Math.sin(π*θ). -/
structure BearingMathFns where
  cosPow15 : ℚ → ℚ
  sqrtQ : ℚ → ℚ
  powTwoThirds : ℚ → ℚ
  cosQ : ℚ → ℚ
  sinQ : ℚ → ℚ

/-- The angular distance (in units of π, wrapped into [0, 1]) of ball i of Z
from the downward load vector at 3π/2, as computed inside the ball loop. -/
def angularDist (Z i : ℕ) : ℚ :=
  let theta := 2 * (i : ℚ) / (Z : ℚ)
  let d0 := |theta - 3 / 2|
  if d0 > 1 then 2 - d0 else d0

/-- The per-ball body of calculateBearingPhysics's loop:
Qmax = radialLoad*5/max(1, ballCount); a ball at wrapped angular distance
ψ < 1/2 (i.e. ψ·π < π/2) from the load vector carries Qmax·cos(ψ·π)^1.5,
every other ball carries zero. -/
def mkBall (fns : BearingMathFns) (params : BearingParams) (i : ℕ) : BearingElement :=
  let pitchRadius := (params.outerRadius + params.innerRadius) / 2
  let ballDiameter := params.outerRadius - params.innerRadius
  let ballRadius := ballDiameter / 2
  let maxBallLoad := params.radialLoad * 5 / (max 1 params.ballCount : ℕ)
  let theta := 2 * (i : ℚ) / (params.ballCount : ℚ)
  let angleDiff := angularDist params.ballCount i
  let ballLoad :=
    if angleDiff < 1 / 2 then maxBallLoad * fns.cosPow15 angleDiff else 0
  { angle := theta
    load := ballLoad
    maxStress := if ballLoad > 0 then 50 * fns.sqrtQ (ballLoad / ballDiameter) else 0
    deformation := if ballLoad > 0 then 1 / 1000 * fns.powTwoThirds ballLoad else 0
    x := pitchRadius * fns.cosQ theta
    y := pitchRadius * fns.sinQ theta
    radius := ballRadius }

/-- calculateBearingPhysics: Stribeck-style load distribution over the
rolling elements, one BearingElement per ball. -/
def calculateBearingPhysics (fns : BearingMathFns) (params : BearingParams) :
    List BearingElement :=
  (List.range params.ballCount).map (mkBall fns params)

/-- A load's total vertical force contribution to the reaction solver's ΣFy
(the per-branch "sumFy -= ..." amounts of the source). -/
def loadFy : LoadDefinition → ℚ
  | .P val _ => -val
  | .M _ _ => 0
  | .U val x1 x2 => -(val * (x2 - x1))
  | .T val x1 x2 _ => -(1 / 2 * val * (x2 - x1))

/-- A load's moment contribution about an arbitrary pivot, generalizing the
reaction solver's per-branch "sumMa -= ..." amounts (which take the pivot at
support A). -/
def loadMoment (pivot : ℚ) : LoadDefinition → ℚ
  | .P val x => -(val * (x - pivot))
  | .M val _ => val
  | .U val x1 x2 => -((val * (x2 - x1)) * ((x1 + x2) / 2 - pivot))
  | .T val x1 x2 peak =>
      let f := 1 / 2 * val * (x2 - x1)
      let d := if peak = .right then (2 / 3) * (x2 - x1) else (1 / 3) * (x2 - x1)
      Neg.neg (f * (x1 + d - pivot))

/-- Sum of the loads' vertical forces. -/
def sumFyOf (loads : List LoadDefinition) : ℚ := (loads.map loadFy).sum

/-- Sum of the loads' moments about a pivot. -/
def sumMomAbout (pivot : ℚ) (loads : List LoadDefinition) : ℚ :=
  (loads.map (loadMoment pivot)).sum

/-- Global vertical-force balance: reactions plus loads. -/
def totalFy (p : SimulationParams) : ℚ :=
  (calcReactions p).Ra + (calcReactions p).Rb + sumFyOf (resolvedLoads p)

/-- Global moment balance about an arbitrary pivot: the reactions acting at
the resolved support positions (plus the wall reaction moment) and all
loads. -/
def totalMoment (p : SimulationParams) (pivot : ℚ) : ℚ :=
  (calcReactions p).Ra * ((resolvedSupports p).1 - pivot)
    + (calcReactions p).Rb * ((resolvedSupports p).2 - pivot)
    + (calcReactions p).Ma
    + sumMomAbout pivot (resolvedLoads p)

/-- The configuration with the base load position clamped into [0, length],
the way calculateBeamPhysics's safeA clamps it. -/
def clampPosition (p : SimulationParams) : SimulationParams :=
  { p with loadPosition := max 0 (min p.loadPosition p.length) }

/-- Sum of the magnitudes of the point loads located exactly at b (the shear
jump the piecewise builder realizes at a segment boundary b). -/
def pJumpAt (b : ℚ) (loads : List LoadDefinition) : ℚ :=
  (loads.map fun l => match l with
    | .P val x => if x = b then val else 0
    | _ => 0).sum

/-- Sum of the magnitudes of the applied moments located exactly at b (the
moment jump the piecewise builder realizes at a segment boundary b). -/
def mJumpAt (b : ℚ) (loads : List LoadDefinition) : ℚ :=
  (loads.map fun l => match l with
    | .M val x => if x = b then val else 0
    | _ => 0).sum

/-- The shear jump contributed at boundary b by support reactions located
exactly at b (zero for a cantilever, whose reaction always acts at x = 0, the
left end of the first segment). -/
def supportJump (b : ℚ) (p : SimulationParams) (r : Reactions) : ℚ :=
  match p.beamType with
  | .cantilever => 0
  | _ =>
      (if (polySupports p).1 = b then r.Ra else 0)
        + (if (polySupports p).2 = b then r.Rb else 0)

/-- Whether a load is a point load or applied moment (no distributed span):
for these the numeric sweep applies pure jumps and its running q intensity
stays 0. -/
def pmLoad : LoadDefinition → Prop
  | .U _ _ _ => False
  | .T _ _ _ _ => False
  | _ => True

/-- The position at which a load acts in the sweep's trigger logic (for
distributed loads the leading edge; unused there). -/
def loadPos : LoadDefinition → ℚ
  | .P _ x => x
  | .M _ x => x
  | .U _ x1 _ => x1
  | .T _ x1 _ _ => x1

/-- The jump a load applies to V at its trigger station. -/
def loadVJump : LoadDefinition → ℚ
  | .P val _ => -val
  | _ => 0

/-- The jump a load applies to M at its trigger station. -/
def loadMJump : LoadDefinition → ℚ
  | .M val _ => -val
  | _ => 0

/-- The force (V-jump) events of a configuration: one (jump, position) pair
per reaction and per load, in the order the sweep applies them. -/
def fEvents (params : SimulationParams) (r : Reactions) : List (ℚ × ℚ) :=
  (match params.beamType with
   | .cantilever => [(r.Ra, 0)]
   | _ => [(r.Ra, (resolvedSupports params).1), (r.Rb, (resolvedSupports params).2)])
  ++ (resolvedLoads params).map (fun l => (loadVJump l, loadPos l))

/-- The moment (M-jump) events: the cantilever wall moment and one pair per
load. -/
def mEvents (params : SimulationParams) (r : Reactions) : List (ℚ × ℚ) :=
  (match params.beamType with
   | .cantilever => [(-r.Ma, 0)]
   | _ => [])
  ++ (resolvedLoads params).map (fun l => (loadMJump l, loadPos l))

/-- Cumulative indicator: the value w once position pos has been passed by
station x. -/
def onAt (x w pos : ℚ) : ℚ := if pos ≤ x then w else 0

/-- The grid point at which the sweep first satisfies checkStep for a
discontinuity at pos: the least multiple of dx that is ≥ pos. -/
def snap (dx pos : ℚ) : ℚ := dx * ⌈pos / dx⌉

/-- The cumulative contribution of one force event to the sweep's
forward-Euler moment: once triggered (at grid point snap), every station
from there on adds w·dx, giving w·(x + dx - snap) at station x. -/
def mAccum (x dx w pos : ℚ) : ℚ :=
  if snap dx pos ≤ x then w * (x + dx - snap dx pos) else 0

/-- Closed form of the sweep's V at station i. -/
def numV (params : SimulationParams) (r : Reactions) (i : ℕ) : ℚ :=
  ((fEvents params r).map (fun e => onAt ((i : ℚ) * sweepDx params) e.1 e.2)).sum

/-- Closed form of the sweep's M at station i. -/
def numM (params : SimulationParams) (r : Reactions) (i : ℕ) : ℚ :=
  ((fEvents params r).map
      (fun e => mAccum ((i : ℚ) * sweepDx params) (sweepDx params) e.1 e.2)).sum
    + ((mEvents params r).map (fun e => onAt ((i : ℚ) * sweepDx params) e.1 e.2)).sum

/-- The V jumps the sweep applies at station i. -/
def stepJumpV (params : SimulationParams) (r : Reactions) (i : ℕ) : ℚ :=
  ((fEvents params r).map
    (fun e =>
      if checkStep ((i : ℚ) * sweepDx params) e.2 (sweepDx params) then e.1 else 0)).sum

/-- The M jumps the sweep applies at station i. -/
def stepJumpM (params : SimulationParams) (r : Reactions) (i : ℕ) : ℚ :=
  ((mEvents params r).map
    (fun e =>
      if checkStep ((i : ℚ) * sweepDx params) e.2 (sweepDx params) then e.1 else 0)).sum

/-- Total jump magnitude of the force events: the constant of the one-step
moment error bound. -/
def eventBound (params : SimulationParams) (r : Reactions) : ℚ :=
  ((fEvents params r).map (fun e => |e.1|)).sum

/-- The point-load update of the sweep's V (the loads.forEach V block). -/
def vLoadStep (x dx v : ℚ) (l : LoadDefinition) : ℚ :=
  match l with
  | .P val lx => if checkStep x lx dx then v - val else v
  | _ => v

/-- The distributed-intensity accumulation of the sweep (the q block). -/
def qLoadStep (x q : ℚ) (l : LoadDefinition) : ℚ :=
  match l with
  | .U val x1 x2 => if x1 ≤ x ∧ x ≤ x2 then q + val else q
  | .T val x1 x2 peak =>
      if x1 ≤ x ∧ x ≤ x2 then
        let rr := (x - x1) / (x2 - x1)
        q + (if peak = .right then rr else 1 - rr) * val
      else q
  | _ => q

/-- The applied-moment update of the sweep's M (the loads.forEach M block). -/
def mLoadStep (x dx m : ℚ) (l : LoadDefinition) : ℚ :=
  match l with
  | .M val lx => if checkStep x lx dx then m - val else m
  | _ => m

/-- Scenario A of the spec: simply supported, L = 8, rectangular section
b = 0.2, h = 0.5, E = 200e9, base point load -50000 at x = 4. -/
def cfgA : SimulationParams :=
  { length := 8, height := 1/2, force := -50000, youngsModulus := 200000000000,
    yieldStrength := 250000000, meshDensityX := 4, meshDensityY := 2,
    deformationScale := 1, beamType := .simplySupported, loadPosition := 4,
    supportA := 0, supportB := 0, customLoads := [],
    sectionType := .rectangular, sectionWidth := 1/5, flangeWidth := 1/10,
    flangeThickness := 1/100, webThickness := 1/100 }

/-- Scenario B of the spec: cantilever, L = 5, base point load -1000 at the
free end. -/
def cfgCant : SimulationParams :=
  { cfgA with
    length := 5
    force := -1000
    loadPosition := 5
    meshDensityX := 5
    beamType := .cantilever }

/-- An overhanging beam with interior supports at 2 and 6 and a single point
load at 4. -/
def cfgOver : SimulationParams :=
  { cfgA with
    beamType := .overhanging
    supportA := 2
    supportB := 6
    customLoads := [.P 10 4] }

/-- A degenerate overhanging beam whose two supports coincide at x = 0,
loaded off the supports. -/
def cfgDegM : SimulationParams :=
  { cfgA with
    length := 1
    beamType := .overhanging
    supportA := 0
    supportB := 0
    customLoads := [.P 1 1] }

/-- A degenerate overhanging beam (coincident supports at 0) whose load acts
exactly at the supports, so ΣMa = 0. -/
def cfgDegA : SimulationParams :=
  { cfgA with
    length := 1
    beamType := .overhanging
    supportA := 0
    supportB := 0
    customLoads := [.P 1 0] }

/-- The same beam as cfgDegA with support B moved to x = 1 (span exactly 1,
not degenerate). -/
def cfgDegB : SimulationParams := { cfgDegA with supportB := 1 }

/-- A beam whose base load position -5 lies outside [0, L] = [0, 1]. -/
def cfgOut : SimulationParams :=
  { cfgA with
    length := 1
    force := -1
    loadPosition := -5 }

/-- A beam with a point load at x = 0.005, closer than 0.01 to the left
end. -/
def cfgTiny : SimulationParams :=
  { cfgA with
    length := 1
    customLoads := [.P 1 (1/200)] }

/-- Scenario-A beam with E = 1, I = 1 and deformationScale = 0, mesh 2 x 1
(node at midspan deflects by 32). -/
def cfgScale0 : SimulationParams :=
  { cfgA with
    force := -3
    youngsModulus := 1
    height := 1
    sectionWidth := 12
    meshDensityX := 2
    meshDensityY := 1
    deformationScale := 0 }

/-- An I-beam section with valid hollow-cutout dimensions. -/
def cfgIbeam : SimulationParams :=
  { cfgA with
    sectionType := .ibeam
    height := 1/5
    flangeWidth := 1/10
    flangeThickness := 1/100
    webThickness := 1/100 }

/-- Scenario C of the spec: bearing with outerRadius = 100, innerRadius = 60,
12 balls, radial load 5000. -/
def bearingC : BearingParams :=
  { outerRadius := 100, innerRadius := 60, ballCount := 12, radialLoad := 5000,
    rotationSpeed := 0, contactAngle := 0 }

/-- A concrete stand-in for the transcendental library functions, agreeing
with them at the sample points the witnesses use (cos(0)^1.5 = 1). -/
def fnsConst : BearingMathFns :=
  { cosPow15 := fun _ => 1, sqrtQ := fun _ => 0, powTwoThirds := fun _ => 0,
    cosQ := fun _ => 1, sinQ := fun _ => 0 }

/-! ## Theorems -/

theorem foldl_accStep (s : ℚ) (loads : List LoadDefinition) :
    ∀ init : ℚ × ℚ,
      loads.foldl (accStep s) init = (init.1 + sumFyOf loads, init.2 + sumMomAbout s loads) := by
  induction loads with
  | nil => intro init; simp [sumFyOf, sumMomAbout]
  | cons l ls ih =>
      intro init
      rw [List.foldl_cons, ih]
      cases l <;>
        rw [Prod.ext_iff] <;>
        constructor <;>
        simp [accStep, loadFy, loadMoment, sumFyOf, sumMomAbout] <;>
        ring

theorem loadAccum_eq (s : ℚ) (loads : List LoadDefinition) :
    loadAccum s loads = (sumFyOf loads, sumMomAbout s loads) := by
  rw [loadAccum, foldl_accStep]
  simp

theorem loadMoment_shift (pivot s : ℚ) (l : LoadDefinition) :
    loadMoment pivot l = loadMoment s l + loadFy l * (s - pivot) := by
  cases l <;> simp [loadMoment, loadFy] <;> ring

theorem sumMomAbout_shift (pivot s : ℚ) (loads : List LoadDefinition) :
    sumMomAbout pivot loads = sumMomAbout s loads + sumFyOf loads * (s - pivot) := by
  induction loads with
  | nil => simp [sumFyOf, sumMomAbout]
  | cons l ls ih =>
      simp only [sumFyOf, sumMomAbout, List.map_cons, List.sum_cons] at ih ⊢
      rw [loadMoment_shift pivot s l, ih]
      ring

/-- C1 (amended): the reactions computed by calculateAnalyticalDiagrams
satisfy exact global equilibrium — ΣFy of reactions plus loads is zero, and
the moment of reactions and loads about every pivot is zero — for every load
list and boundary condition, provided that for the two-support boundary
conditions the supports do not coincide within the solver's 1e-6 span
tolerance (the original claim fails in that degenerate case, see the
counterexample). -/
theorem claim_C1_equilibrium (p : SimulationParams)
    (h : p.beamType = .cantilever
        ∨ 1 / 1000000 ≤ |(resolvedSupports p).2 - (resolvedSupports p).1|) :
    totalFy p = 0 ∧ ∀ pivot : ℚ, totalMoment p pivot = 0 := by
  rcases hbt : p.beamType with bt | bt | bt
  case cantilever =>
    refine ⟨?_, fun pivot => ?_⟩
    · simp only [totalFy, calcReactions, hbt, loadAccum_eq]
      ring
    · simp only [totalMoment, calcReactions, hbt, loadAccum_eq, resolvedSupports]
      rw [sumMomAbout_shift pivot 0]
      ring
  case simplySupported =>
    have h' : 1 / 1000000 ≤ |p.length - 0| := by
      rcases h with h | h
      · rw [hbt] at h; cases h
      · simpa only [resolvedSupports, hbt] using h
    have hL : p.length ≠ 0 := by
      intro h0
      rw [h0] at h'
      norm_num at h'
    have hnotlt : ¬ |p.length - 0| < 1 / 1000000 := not_lt.mpr h'
    refine ⟨?_, fun pivot => ?_⟩
    · simp only [totalFy, calcReactions, hbt, loadAccum_eq, resolvedSupports]
      rw [if_neg hnotlt]
      ring
    · simp only [totalMoment, calcReactions, hbt, loadAccum_eq, resolvedSupports]
      rw [if_neg hnotlt, sumMomAbout_shift pivot 0]
      field_simp [hL]
      ring
  case overhanging =>
    have h' : 1 / 1000000 ≤ |p.supportB - p.supportA| := by
      rcases h with h | h
      · rw [hbt] at h; cases h
      · simpa only [resolvedSupports, hbt] using h
    have hS : p.supportB - p.supportA ≠ 0 := by
      intro h0
      rw [h0] at h'
      norm_num at h'
    have hnotlt : ¬ |p.supportB - p.supportA| < 1 / 1000000 := not_lt.mpr h'
    refine ⟨?_, fun pivot => ?_⟩
    · simp only [totalFy, calcReactions, hbt, loadAccum_eq, resolvedSupports]
      rw [if_neg hnotlt]
      ring
    · simp only [totalMoment, calcReactions, hbt, loadAccum_eq, resolvedSupports]
      rw [if_neg hnotlt, sumMomAbout_shift pivot p.supportA]
      field_simp [hS]
      ring

/-- C1 witness: scenario A is in exact equilibrium (shown about pivot 3). -/
theorem claim_C1_equilibrium_witness : totalFy cfgA = 0 ∧ totalMoment cfgA 3 = 0 :=
  have h := claim_C1_equilibrium cfgA (Or.inr (by norm_num [resolvedSupports, cfgA]))
  ⟨h.1, h.2 3⟩

/-- C1 counterexample: for an overhanging beam whose supports coincide at
x = 0 under a unit point load at x = 1, the moment of the computed reactions
and the loads about the pivot 0 is -1, not 0, so equilibrium fails for this
configuration. -/
theorem claim_C1_equilibrium_cex : totalMoment cfgDegM 0 = -1 := by
  norm_num [totalMoment, cfgDegM, cfgA, calcReactions, resolvedSupports, resolvedLoads,
    loadAccum, accStep, sumMomAbout, loadMoment, List.foldl_cons, List.foldl_nil]

/-- C6: for an I-beam section with positive dimensions,
calculateSectionProperties returns the hollow-box inertia
(B·H³ − (B−tw)·(H−2·tf)³)/12 when both inner dimensions are positive, falls
back to the solid rectangle inertia B·H³/12 otherwise, and the returned I is
always positive (in particular never negative; NaN does not exist over exact
arithmetic). -/
theorem claim_C6_section_fallback (p : SimulationParams) (hs : p.sectionType = .ibeam)
    (hH : 0 < p.height) (hB : 0 < p.flangeWidth) (htf : 0 < p.flangeThickness)
    (htw : 0 < p.webThickness) :
    (0 < p.height - 2 * p.flangeThickness → 0 < p.flangeWidth - p.webThickness →
      (calculateSectionProperties p).1 =
        (p.flangeWidth * p.height ^ 3
          - (p.flangeWidth - p.webThickness) * (p.height - 2 * p.flangeThickness) ^ 3) / 12)
    ∧ (¬(0 < p.height - 2 * p.flangeThickness ∧ 0 < p.flangeWidth - p.webThickness) →
      (calculateSectionProperties p).1 = p.flangeWidth * p.height ^ 3 / 12)
    ∧ 0 < (calculateSectionProperties p).1 := by
  simp only [calculateSectionProperties, hs, gt_iff_lt]
  split_ifs with hcond
  · refine ⟨fun _ _ => rfl, fun hc => absurd hcond hc, ?_⟩
    have h3 : (p.height - 2 * p.flangeThickness) ^ 3 < p.height ^ 3 := by
      have hlt : p.height - 2 * p.flangeThickness < p.height := by linarith
      exact pow_lt_pow_left₀ hlt (le_of_lt hcond.1) (by norm_num)
    have hmul : (p.flangeWidth - p.webThickness) * (p.height - 2 * p.flangeThickness) ^ 3
        < p.flangeWidth * p.height ^ 3 := by
      apply mul_lt_mul'' _ h3 (le_of_lt hcond.2) (le_of_lt (pow_pos hcond.1 3))
      linarith
    have : (0:ℚ) < p.flangeWidth * p.height ^ 3
        - (p.flangeWidth - p.webThickness) * (p.height - 2 * p.flangeThickness) ^ 3 := by
      linarith
    positivity
  · refine ⟨fun h1 h2 => absurd ⟨h1, h2⟩ hcond, fun _ => rfl, ?_⟩
    have : (0:ℚ) < p.flangeWidth * p.height ^ 3 := by positivity
    positivity

/-- C6 witness: the hollow I-beam section of cfgIbeam yields a positive
inertia. -/
theorem claim_C6_section_fallback_witness : 0 < (calculateSectionProperties cfgIbeam).1 :=
  (claim_C6_section_fallback cfgIbeam rfl (by norm_num [cfgIbeam, cfgA])
    (by norm_num [cfgIbeam, cfgA]) (by norm_num [cfgIbeam, cfgA])
    (by norm_num [cfgIbeam, cfgA])).2.2

/-- C2 (code bug): with the spec's own sign convention (negative force =
downward load), the field solver produces stress of the wrong physical sign
at the extreme fibers.  For scenario A (simply supported, downward base load,
interior node x = 2 at the top fiber y = +h/2) the stress is +6e6 (tension),
where the claim requires compression; for scenario B (cantilever, downward
tip load, top fiber at the fixed end) the stress is -6e5 (compression),
where the claim requires tension. -/
theorem claim_C2_stress_sign :
    cfgA.force < 0
    ∧ (getNode cfgA 1 2).y = cfgA.height / 2
    ∧ (getNode cfgA 1 2).stress = 6000000
    ∧ cfgCant.force < 0
    ∧ (getNode cfgCant 0 2).y = cfgCant.height / 2
    ∧ (getNode cfgCant 0 2).stress = -600000 := by
  refine ⟨by norm_num [cfgA], ?_, ?_, by norm_num [cfgCant, cfgA], ?_, ?_⟩ <;>
    norm_num [getNode, nodeVTM, cfgA, cfgCant, safeA, scaleOf, calculateSectionProperties]

/-- C7: each rolling element at wrapped angular distance ψ (in units of π)
from the downward load vector carries Qmax·cos(ψπ)^1.5 when ψ < 1/2 (i.e.
ψπ < π/2) and exactly zero otherwise, with Qmax = radialLoad·5/ballCount for
ballCount ≥ 1; in scenario C (outer 100, inner 60, 12 balls, load 5000) the
ball aligned with the load vector (ψ = 0) carries Qmax = 6250/3 ≈ 2083.3 and
every ball with ψ ≥ 1/2 carries zero. -/
theorem claim_C7_bearing_load :
    (∀ (fns : BearingMathFns) (p : BearingParams), 1 ≤ p.ballCount →
      ∀ i : ℕ, i < p.ballCount →
        ∃ e : BearingElement, (calculateBearingPhysics fns p)[i]? = some e ∧
          (angularDist p.ballCount i < 1 / 2 →
            e.load = p.radialLoad * 5 / (p.ballCount : ℚ)
              * fns.cosPow15 (angularDist p.ballCount i))
          ∧ (1 / 2 ≤ angularDist p.ballCount i → e.load = 0))
    ∧ (∀ fns : BearingMathFns, fns.cosPow15 0 = 1 →
        ∃ e : BearingElement, (calculateBearingPhysics fns bearingC)[9]? = some e ∧
          e.load = 6250 / 3)
    ∧ (∀ (fns : BearingMathFns) (i : ℕ), i < 12 → 1 / 2 ≤ angularDist 12 i →
        ∃ e : BearingElement, (calculateBearingPhysics fns bearingC)[i]? = some e ∧
          e.load = 0) := by
  have key : ∀ (fns : BearingMathFns) (p : BearingParams) (i : ℕ), i < p.ballCount →
      ∃ e : BearingElement, (calculateBearingPhysics fns p)[i]? = some e ∧
        e.load = (if angularDist p.ballCount i < 1 / 2 then
          p.radialLoad * 5 / ((max 1 p.ballCount : ℕ) : ℚ)
            * fns.cosPow15 (angularDist p.ballCount i) else 0) := by
    intro fns p i hi
    refine ⟨mkBall fns p i, ?_, rfl⟩
    simp [calculateBearingPhysics, List.getElem?_map, List.getElem?_range, hi]
  refine ⟨?_, ?_, ?_⟩
  · intro fns p hZ i hi
    obtain ⟨e, he, hload⟩ := key fns p i hi
    refine ⟨e, he, ?_, ?_⟩
    · intro hlt
      rw [hload, if_pos hlt, Nat.max_eq_right hZ]
    · intro hge
      rw [hload, if_neg (not_lt.mpr hge)]
  · intro fns h1
    obtain ⟨e, he, hload⟩ := key fns bearingC 9 (by norm_num [bearingC])
    refine ⟨e, he, ?_⟩
    have h0 : angularDist bearingC.ballCount 9 = 0 := by norm_num [angularDist, bearingC]
    rw [hload, if_pos (by rw [h0]; norm_num), h0, h1]
    norm_num [bearingC]
  · intro fns i hi hge
    obtain ⟨e, he, hload⟩ := key fns bearingC i (by simpa [bearingC] using hi)
    refine ⟨e, he, ?_⟩
    rw [hload, if_neg (not_lt.mpr (by simpa [bearingC] using hge))]

/-- C7 witness: in scenario C the ball at ψ = 0 (index 9) carries exactly
6250/3. -/
theorem claim_C7_bearing_load_witness :
    ∃ e : BearingElement, (calculateBearingPhysics fnsConst bearingC)[9]? = some e ∧
      e.load = 6250 / 3 :=
  claim_C7_bearing_load.2.1 fnsConst rfl

/-- C8 (amended): when the two supports coincide within the 1e-6 tolerance,
the solver substitutes a span of 1, so Rb = -ΣMa/1 = -ΣMa, Ra = -ΣFy + ΣMa
and Ma = 0 are all numerically defined (division by the zero span never
happens; over exact arithmetic no NaN/Infinity can arise).  However, contrary
to the original claim, the returned DiagramData carries no degeneracy flag:
see the counterexample, where a degenerate and a non-degenerate
configuration produce identical results. -/
theorem claim_C8_degenerate_span (p : SimulationParams)
    (hbt : p.beamType ≠ .cantilever)
    (hdeg : |(resolvedSupports p).2 - (resolvedSupports p).1| < 1 / 1000000) :
    (calculateAnalyticalDiagrams p).reactions.Rb
        = -(sumMomAbout (resolvedSupports p).1 (resolvedLoads p))
    ∧ (calculateAnalyticalDiagrams p).reactions.Ra
        = -(sumFyOf (resolvedLoads p)) + sumMomAbout (resolvedSupports p).1 (resolvedLoads p)
    ∧ (calculateAnalyticalDiagrams p).reactions.Ma = 0 := by
  rcases hb : p.beamType with bt | bt | bt
  · exact absurd hb hbt
  all_goals
    have hdeg' := hdeg
    simp only [resolvedSupports, hb] at hdeg'
    refine ⟨?_, ?_, ?_⟩
    · simp only [calculateAnalyticalDiagrams, calcReactions, hb, loadAccum_eq,
        resolvedSupports]
      rw [if_pos hdeg']
      ring
    · simp only [calculateAnalyticalDiagrams, calcReactions, hb, loadAccum_eq,
        resolvedSupports]
      rw [if_pos hdeg']
      ring
    · simp [calculateAnalyticalDiagrams, calcReactions, hb, loadAccum_eq, resolvedSupports]

/-- C8 witness: the coincident-support configuration cfgDegA gets the
substituted span of 1 and well-defined reactions. -/
theorem claim_C8_degenerate_span_witness :
    (calculateAnalyticalDiagrams cfgDegA).reactions.Rb
        = -(sumMomAbout (resolvedSupports cfgDegA).1 (resolvedLoads cfgDegA))
    ∧ (calculateAnalyticalDiagrams cfgDegA).reactions.Ra
        = -(sumFyOf (resolvedLoads cfgDegA))
          + sumMomAbout (resolvedSupports cfgDegA).1 (resolvedLoads cfgDegA)
    ∧ (calculateAnalyticalDiagrams cfgDegA).reactions.Ma = 0 :=
  claim_C8_degenerate_span cfgDegA (by simp [cfgDegA, cfgA])
    (by norm_num [resolvedSupports, cfgDegA, cfgA])

theorem calcReactions_cfgDegA : calcReactions cfgDegA = { Ra := 1, Rb := 0, Ma := 0 } := by
  norm_num [calcReactions, cfgDegA, cfgA, resolvedSupports, resolvedLoads, loadAccum,
    accStep, List.foldl_cons, List.foldl_nil, Reactions.mk.injEq]

theorem calcReactions_cfgDegB : calcReactions cfgDegB = { Ra := 1, Rb := 0, Ma := 0 } := by
  norm_num [calcReactions, cfgDegB, cfgDegA, cfgA, resolvedSupports, resolvedLoads,
    loadAccum, accStep, List.foldl_cons, List.foldl_nil, Reactions.mk.injEq]

/-- C8 counterexample: the degenerate configuration cfgDegA (supports
coincident at 0) and the non-degenerate cfgDegB (span exactly 1) produce
byte-identical DiagramData, so the result cannot flag the degenerate
configuration to the caller — no such flag exists in the output. -/
theorem claim_C8_degenerate_span_cex :
    calculateAnalyticalDiagrams cfgDegA = calculateAnalyticalDiagrams cfgDegB
    ∧ (resolvedSupports cfgDegA).1 = (resolvedSupports cfgDegA).2
    ∧ (resolvedSupports cfgDegB).2 - (resolvedSupports cfgDegB).1 = 1 := by
  refine ⟨?_, by norm_num [resolvedSupports, cfgDegA, cfgA],
    by norm_num [resolvedSupports, cfgDegB, cfgDegA, cfgA]⟩
  have hstep : ∀ (i : ℕ) (s : ℚ × ℚ),
      sweepStep cfgDegA (calcReactions cfgDegA) i s
        = sweepStep cfgDegB (calcReactions cfgDegB) i s := by
    intro i s
    rw [calcReactions_cfgDegA, calcReactions_cfgDegB]
    simp [sweepStep, sweepDx, resolvedSupports, resolvedLoads, cfgDegA, cfgDegB, cfgA]
  have hstate : ∀ n : ℕ,
      sweepState cfgDegA (calcReactions cfgDegA) n
        = sweepState cfgDegB (calcReactions cfgDegB) n := by
    intro n
    induction n with
    | zero => rfl
    | succ k ih =>
        show sweepStep cfgDegA (calcReactions cfgDegA) k _
          = sweepStep cfgDegB (calcReactions cfgDegB) k _
        rw [ih, hstep]
  simp only [calculateAnalyticalDiagrams, DiagramData.mk.injEq]
  refine ⟨rfl, ?_, ?_, calcReactions_cfgDegA.trans calcReactions_cfgDegB.symm⟩
  · exact List.map_congr_left fun i _ => by rw [hstate]
  · exact List.map_congr_left fun i _ => by rw [hstate]

theorem safeA_clampPosition (p : SimulationParams) :
    safeA (clampPosition p) = safeA p := by
  simp only [safeA, clampPosition]
  rcases le_or_lt 0 p.length with hL | hL
  · have hc : min (max 0 (min p.loadPosition p.length)) p.length
        = max 0 (min p.loadPosition p.length) :=
      min_eq_left (max_le hL (min_le_right _ _))
    rw [hc, ← max_assoc, max_self]
  · have h0 : max 0 (min p.loadPosition p.length) = 0 :=
      max_eq_left (le_of_lt (lt_of_le_of_lt (min_le_right _ _) hL))
    rw [h0, min_eq_right hL.le, max_eq_left hL.le]

theorem nodeVTM_clampPosition (p : SimulationParams) (i j : ℕ) :
    nodeVTM (clampPosition p) i j = nodeVTM p i j := by
  unfold nodeVTM
  rw [safeA_clampPosition]
  rfl

/-- C9 (amended): the field solver calculateBeamPhysics clamps the base load
position — it behaves identically on a configuration whose position is
replaced by min(max(position, 0), L).  The diagram/reaction solver
calculateAnalyticalDiagrams, however, uses the raw position for its
synthesized base load (no clamp): see the counterexample. -/
theorem claim_C9_position_clamp (p : SimulationParams) :
    calculateBeamPhysics p = calculateBeamPhysics (clampPosition p) := by
  have hnode : ∀ i j : ℕ, getNode (clampPosition p) i j = getNode p i j := by
    intro i j
    unfold getNode
    rw [nodeVTM_clampPosition]
    rfl
  have hel : ∀ ij : ℕ × ℕ, mkElement (clampPosition p) ij = mkElement p ij := by
    intro ij
    unfold mkElement
    rw [hnode, hnode, hnode, hnode]
  show (meshIndices p).map (mkElement p)
      = (meshIndices (clampPosition p)).map (mkElement (clampPosition p))
  rw [show meshIndices (clampPosition p) = meshIndices p from rfl]
  exact (List.map_congr_left fun ij _ => hel ij).symm

/-- C9 counterexample: for a base load position -5 on a beam of length 1, the
diagram/reaction solver does not clamp: its output differs from the clamped
configuration's output (the left reaction is 6 instead of 1). -/
theorem claim_C9_position_clamp_cex :
    calculateAnalyticalDiagrams cfgOut ≠ calculateAnalyticalDiagrams (clampPosition cfgOut) := by
  intro h
  have h2 := congrArg (fun d => d.reactions.Ra) h
  norm_num [calculateAnalyticalDiagrams, calcReactions, clampPosition, cfgOut, cfgA,
    resolvedSupports, resolvedLoads, loadAccum, accStep, List.foldl_cons,
    List.foldl_nil] at h2

theorem ite_gt_eq_max (a x : ℚ) : (if x > a then x else a) = max a x := by
  rcases le_or_lt x a with h | h
  · rw [if_neg (not_lt.mpr h), max_eq_left h]
  · rw [if_pos h, max_eq_right h.le]

theorem statsNodeStep_eq (acc : ℚ × ℚ) (n : NodePoint) :
    statsNodeStep acc n = (max acc.1 |n.stress|, max acc.2 |n.dy - n.y|) := by
  simp only [statsNodeStep, ite_gt_eq_max]

theorem statsNodeStep_scale {c : ℚ} (hc : 0 < c) (accS accD : ℚ) (n n1 : NodePoint)
    (hstress : n.stress = n1.stress) (hdefl : n.dy - n.y = c * (n1.dy - n1.y)) :
    statsNodeStep (accS, c * accD) n
      = ((statsNodeStep (accS, accD) n1).1, c * (statsNodeStep (accS, accD) n1).2) := by
  rw [statsNodeStep_eq, statsNodeStep_eq, hstress, hdefl]
  rw [Prod.ext_iff]
  refine ⟨rfl, ?_⟩
  simp only [abs_mul, abs_of_pos hc]
  exact (mul_max_of_nonneg _ _ hc.le).symm

theorem getNode_stress_scaleFree (p : SimulationParams) (i j : ℕ) :
    (getNode p i j).stress = (getNode { p with deformationScale := 1 } i j).stress := rfl

theorem getNode_defl (p : SimulationParams) (i j : ℕ) :
    (getNode p i j).dy - (getNode p i j).y = (nodeVTM p i j).1 * scaleOf p := by
  simp only [getNode]
  ring

theorem getNode_defl_scale (p : SimulationParams) (hds : p.deformationScale ≠ 0) (i j : ℕ) :
    (getNode p i j).dy - (getNode p i j).y
      = p.deformationScale
        * ((getNode { p with deformationScale := 1 } i j).dy
            - (getNode { p with deformationScale := 1 } i j).y) := by
  have h1 : scaleOf p = p.deformationScale := if_neg hds
  have h2 : scaleOf { p with deformationScale := 1 } = 1 := if_neg (by norm_num)
  have h3 : nodeVTM { p with deformationScale := 1 } i j = nodeVTM p i j := rfl
  rw [getNode_defl, getNode_defl, h1, h2, h3]
  ring

theorem element_fold_scale (p : SimulationParams) (hds : 0 < p.deformationScale)
    (ij : ℕ × ℕ) (accS accD : ℚ) :
    (mkElement p ij).nodes.foldl statsNodeStep (accS, p.deformationScale * accD)
      = (((mkElement { p with deformationScale := 1 } ij).nodes.foldl statsNodeStep
            (accS, accD)).1,
         p.deformationScale
           * ((mkElement { p with deformationScale := 1 } ij).nodes.foldl statsNodeStep
              (accS, accD)).2) := by
  have hne := ne_of_gt hds
  simp only [mkElement, List.foldl_cons, List.foldl_nil]
  rw [statsNodeStep_scale hds _ _ _ _ (getNode_stress_scaleFree p _ _)
      (getNode_defl_scale p hne _ _)]
  rw [statsNodeStep_scale hds _ _ _ _ (getNode_stress_scaleFree p _ _)
      (getNode_defl_scale p hne _ _)]
  rw [statsNodeStep_scale hds _ _ _ _ (getNode_stress_scaleFree p _ _)
      (getNode_defl_scale p hne _ _)]
  rw [statsNodeStep_scale hds _ _ _ _ (getNode_stress_scaleFree p _ _)
      (getNode_defl_scale p hne _ _)]

theorem stats_fold_scale (p : SimulationParams) (hds : 0 < p.deformationScale)
    (idx : List (ℕ × ℕ)) :
    ∀ accS accD : ℚ,
      (idx.map (mkElement p)).foldl (fun acc el => el.nodes.foldl statsNodeStep acc)
          (accS, p.deformationScale * accD)
        = (((idx.map (mkElement { p with deformationScale := 1 })).foldl
              (fun acc el => el.nodes.foldl statsNodeStep acc) (accS, accD)).1,
           p.deformationScale
             * ((idx.map (mkElement { p with deformationScale := 1 })).foldl
                (fun acc el => el.nodes.foldl statsNodeStep acc) (accS, accD)).2) := by
  induction idx with
  | nil => intro accS accD; rfl
  | cons ij rest ih =>
      intro accS accD
      simp only [List.map_cons, List.foldl_cons]
      rw [element_fold_scale p hds ij accS accD, ih]

/-- C10 (amended): for every configuration with a positive deformationScale,
the maxDeflection statistic of calculateBeamStats over the mesh equals
deformationScale times the statistic of the same configuration with
deformationScale 1 (which is the maximum physical deflection max |v| over the
mesh nodes, since dy - y = v there).  The statistic is therefore the
exaggerated display deflection, scaling linearly with deformationScale — but
only for nonzero scales: at deformationScale = 0 the solver falls back to
scale 1 (the "|| 1" default), breaking the proportionality (see the
counterexample). -/
theorem claim_C10_deflection_scaling (p : SimulationParams)
    (hds : 0 < p.deformationScale) :
    (calculateBeamStats (calculateBeamPhysics p)).2
      = p.deformationScale
        * (calculateBeamStats
            (calculateBeamPhysics { p with deformationScale := 1 })).2 :=
  calc (calculateBeamStats (calculateBeamPhysics p)).2
      = (((meshIndices p).map (mkElement p)).foldl
          (fun acc el => el.nodes.foldl statsNodeStep acc)
          ((0 : ℚ), p.deformationScale * 0)).2 := by rw [mul_zero]; rfl
    _ = p.deformationScale
        * (((meshIndices p).map (mkElement { p with deformationScale := 1 })).foldl
            (fun acc el => el.nodes.foldl statsNodeStep acc) ((0 : ℚ), (0 : ℚ))).2 := by
          rw [stats_fold_scale p hds (meshIndices p) 0 0]
    _ = p.deformationScale
        * (calculateBeamStats
            (calculateBeamPhysics { p with deformationScale := 1 })).2 := rfl

/-- C10 witness: for scenario A (deformationScale 1) the displayed and
unit-scale maximum deflections agree. -/
theorem claim_C10_deflection_scaling_witness :
    (calculateBeamStats (calculateBeamPhysics cfgA)).2
      = cfgA.deformationScale
        * (calculateBeamStats
            (calculateBeamPhysics { cfgA with deformationScale := 1 })).2 :=
  claim_C10_deflection_scaling cfgA (by norm_num [cfgA])

/-- C10 counterexample: at deformationScale = 0 the mesh is built with the
fallback scale 1, so the reported maxDeflection is 32 (the physical maximum)
rather than 0 = deformationScale times the physical maximum; the claimed
identity fails for this configuration. -/
theorem claim_C10_deflection_scaling_cex :
    ¬ ((calculateBeamStats (calculateBeamPhysics cfgScale0)).2
        = cfgScale0.deformationScale
          * (calculateBeamStats
              (calculateBeamPhysics { cfgScale0 with deformationScale := 1 })).2) := by
  have h1 : (calculateBeamStats (calculateBeamPhysics cfgScale0)).2 = 32 := by
    norm_num [calculateBeamStats, calculateBeamPhysics, meshIndices, mkElement, getNode,
      nodeVTM, statsNodeStep, safeA, scaleOf, calculateSectionProperties, cfgScale0, cfgA,
      List.range_succ, List.foldl_cons, List.foldl_nil]
  have h2 : cfgScale0.deformationScale = 0 := by norm_num [cfgScale0, cfgA]
  rw [h1, h2]
  norm_num


theorem sweepDx_pos (p : SimulationParams) (hL : 0 < p.length) : 0 < sweepDx p := by
  unfold sweepDx sweepN
  positivity

theorem sweep400dx (p : SimulationParams) : (400 : ℚ) * sweepDx p = p.length := by
  unfold sweepDx sweepN
  push_cast
  ring

theorem trigger_zero (p : SimulationParams) (hL : 0 < p.length) (i : ℕ) :
    ((0:ℚ) ≤ (i:ℚ) * sweepDx p ∧ (i:ℚ) * sweepDx p < 0 + sweepDx p) ↔ i = 0 := by
  have hdx := sweepDx_pos p hL
  constructor
  · rintro ⟨h1, h2⟩
    by_contra hne
    have hi1 : (1:ℚ) ≤ (i:ℚ) := by
      exact_mod_cast Nat.one_le_iff_ne_zero.mpr hne
    have : sweepDx p ≤ (i:ℚ) * sweepDx p := le_mul_of_one_le_left hdx.le hi1
    linarith
  · rintro rfl
    norm_num [hdx]

theorem trigger_L (p : SimulationParams) (hL : 0 < p.length) (i : ℕ) (hi : i < 400) :
    ¬ (p.length ≤ (i:ℚ) * sweepDx p ∧ (i:ℚ) * sweepDx p < p.length + sweepDx p) := by
  have hdx := sweepDx_pos p hL
  rintro ⟨h1, _⟩
  have hi' : (i:ℚ) < 400 := by exact_mod_cast hi
  have h2 : (i:ℚ) * sweepDx p < 400 * sweepDx p := mul_lt_mul_of_pos_right hi' hdx
  have h400 := sweep400dx p
  linarith

theorem trigger_a (p : SimulationParams) (hL : 0 < p.length) (k : ℕ)
    (hk2 : ((k : ℚ) - 1) * sweepDx p < p.loadPosition)
    (hk3 : p.loadPosition ≤ (k : ℚ) * sweepDx p) (i : ℕ) :
    (p.loadPosition ≤ (i:ℚ) * sweepDx p
      ∧ (i:ℚ) * sweepDx p < p.loadPosition + sweepDx p) ↔ i = k := by
  have hdx := sweepDx_pos p hL
  have hexp1 : ((k:ℚ) - 1) * sweepDx p = (k:ℚ) * sweepDx p - sweepDx p := by ring
  constructor
  · rintro ⟨h1, h2⟩
    have hik : (k:ℚ) - 1 < (i:ℚ) := by
      by_contra hle
      push_neg at hle
      have : (i:ℚ) * sweepDx p ≤ ((k:ℚ) - 1) * sweepDx p :=
        mul_le_mul_of_nonneg_right hle hdx.le
      linarith
    have hik2 : (i:ℚ) < (k:ℚ) + 1 := by
      by_contra hge
      push_neg at hge
      have hd : ((k:ℚ) + 1) * sweepDx p ≤ (i:ℚ) * sweepDx p :=
        mul_le_mul_of_nonneg_right hge hdx.le
      have hexp2 : ((k:ℚ) + 1) * sweepDx p = (k:ℚ) * sweepDx p + sweepDx p := by ring
      linarith
    have h5 : k < i + 1 := by exact_mod_cast show (k:ℚ) < (i:ℚ) + 1 by linarith
    have h6 : i < k + 1 := by exact_mod_cast show (i:ℚ) < (k:ℚ) + 1 from hik2
    omega
  · rintro rfl
    exact ⟨hk3, by linarith⟩

theorem sweep_closed (p : SimulationParams) (r : Reactions)
    (hbt : p.beamType = .simplySupported) (hcl : p.customLoads = [])
    (hL : 0 < p.length) (k : ℕ) (hk1 : 1 ≤ k)
    (hk2 : ((k : ℚ) - 1) * sweepDx p < p.loadPosition)
    (hk3 : p.loadPosition ≤ (k : ℚ) * sweepDx p) :
    ∀ i : ℕ, i < 400 →
      sweepState p r (i + 1)
        = if i < k then (r.Ra, ((i : ℚ) + 1) * r.Ra * sweepDx p)
          else (r.Ra - |p.force|,
                (((i : ℚ) + 1) * r.Ra - (((i : ℚ) + 1) - (k : ℚ)) * |p.force|) * sweepDx p) := by
  have hdx := sweepDx_pos p hL
  have hstep : ∀ i : ℕ, i < 400 → ∀ s : ℚ × ℚ,
      sweepStep p r i s
        = (s.1 + (if i = 0 then r.Ra else 0) - (if i = k then |p.force| else 0),
           s.2 + (s.1 + (if i = 0 then r.Ra else 0)
              - (if i = k then |p.force| else 0)) * sweepDx p) := by
    intro i hi s
    have hT0 : ∀ v : ℚ,
        (if checkStep ((i:ℚ) * sweepDx p) 0 (sweepDx p) then v + r.Ra else v)
          = v + (if i = 0 then r.Ra else 0) := by
      intro v
      rcases eq_or_ne i 0 with h | h
      · rw [if_pos ((trigger_zero p hL i).mpr h), if_pos h]
      · rw [if_neg (fun hc => h ((trigger_zero p hL i).mp hc)), if_neg h, add_zero]
    have hTL : ∀ v : ℚ,
        (if checkStep ((i:ℚ) * sweepDx p) p.length (sweepDx p) then v + r.Rb else v) = v :=
      fun v => if_neg (trigger_L p hL i hi)
    have hTa : ∀ v : ℚ,
        (if checkStep ((i:ℚ) * sweepDx p) p.loadPosition (sweepDx p) then v - |p.force| else v)
          = v - (if i = k then |p.force| else 0) := by
      intro v
      rcases eq_or_ne i k with h | h
      · rw [if_pos ((trigger_a p hL k hk2 hk3 i).mpr h), if_pos h]
      · rw [if_neg (fun hc => h ((trigger_a p hL k hk2 hk3 i).mp hc)), if_neg h, sub_zero]
    simp only [sweepStep, hbt, resolvedSupports, resolvedLoads, hcl, if_true,
      List.foldl_cons, List.foldl_nil, hT0, hTL, hTa, zero_mul, sub_zero]
  intro i
  induction i with
  | zero =>
      intro h400
      rw [if_pos (Nat.lt_of_lt_of_le Nat.zero_lt_one hk1)]
      show sweepStep p r 0 (sweepState p r 0) = _
      rw [show sweepState p r 0 = ((0:ℚ), (0:ℚ)) from rfl, hstep 0 (by norm_num)]
      rw [if_pos rfl, if_neg (by omega : (0:ℕ) ≠ k)]
      rw [Prod.ext_iff]
      constructor <;> push_cast <;> ring
  | succ n ihn =>
      intro hn400
      have hn : n < 400 := by omega
      have hprev := ihn hn
      show sweepStep p r (n + 1) (sweepState p r (n + 1)) = _
      rcases lt_trichotomy (n + 1) k with hlt | heq | hgt
      · have hp : sweepState p r (n + 1) = (r.Ra, ((n:ℚ) + 1) * r.Ra * sweepDx p) := by
          rw [hprev, if_pos (by omega : n < k)]
        rw [hp, hstep (n + 1) hn400, if_neg (by omega : n + 1 ≠ 0),
          if_neg (by omega : n + 1 ≠ k), if_pos hlt]
        rw [Prod.ext_iff]
        constructor <;> push_cast <;> ring
      · have hp : sweepState p r (n + 1) = (r.Ra, ((n:ℚ) + 1) * r.Ra * sweepDx p) := by
          rw [hprev, if_pos (by omega : n < k)]
        rw [hp, hstep (n + 1) hn400, if_neg (by omega : n + 1 ≠ 0),
          if_pos heq, if_neg (by omega : ¬ n + 1 < k)]
        rw [Prod.ext_iff]
        subst heq
        constructor <;> push_cast <;> ring
      · have hp : sweepState p r (n + 1)
            = (r.Ra - |p.force|,
               (((n:ℚ) + 1) * r.Ra - (((n:ℚ) + 1) - (k : ℚ)) * |p.force|) * sweepDx p) := by
          rw [hprev, if_neg (by omega : ¬ n < k)]
        rw [hp, hstep (n + 1) hn400, if_neg (by omega : n + 1 ≠ 0),
          if_neg (by omega : n + 1 ≠ k), if_neg (by omega : ¬ n + 1 < k)]
        rw [Prod.ext_iff]
        constructor <;> push_cast <;> ring


theorem evalV_polyAdd (c d : PolyCoeffs) (x : ℚ) :
    evalV (polyAdd c d) x = evalV c x + evalV d x := by
  simp only [evalV, polyAdd]
  ring

theorem evalM_polyAdd (c d : PolyCoeffs) (x : ℚ) :
    evalM (polyAdd c d) x = evalM c x + evalM d x := by
  simp only [evalM, polyAdd]
  ring

theorem evalV_foldl (xA xB x : ℚ) (loads : List LoadDefinition) :
    ∀ c0 : PolyCoeffs,
      evalV (loads.foldl (fun c l => polyAdd c (loadPolyDelta xA xB l)) c0) x
        = evalV c0 x + (loads.map fun l => evalV (loadPolyDelta xA xB l) x).sum := by
  induction loads with
  | nil => intro c0; simp
  | cons l ls ih =>
      intro c0
      rw [List.foldl_cons, ih, evalV_polyAdd]
      simp [add_assoc]

theorem evalM_foldl (xA xB x : ℚ) (loads : List LoadDefinition) :
    ∀ c0 : PolyCoeffs,
      evalM (loads.foldl (fun c l => polyAdd c (loadPolyDelta xA xB l)) c0) x
        = evalM c0 x + (loads.map fun l => evalM (loadPolyDelta xA xB l) x).sum := by
  induction loads with
  | nil => intro c0; simp
  | cons l ls ih =>
      intro c0
      rw [List.foldl_cons, ih, evalM_polyAdd]
      simp [add_assoc]

theorem sum_map_addAny {α : Type} (E : List α) (A B : α → ℚ) :
    (E.map (fun e => A e + B e)).sum = (E.map A).sum + (E.map B).sum := by
  induction E with
  | nil => simp
  | cons a t ih => simp only [List.map_cons, List.sum_cons, ih]; ring

theorem sum_map_subAny {α : Type} (E : List α) (A B : α → ℚ) :
    (E.map (fun e => A e - B e)).sum = (E.map A).sum - (E.map B).sum := by
  induction E with
  | nil => simp
  | cons a t ih => simp only [List.map_cons, List.sum_cons, ih]; ring

theorem sum_map_mulAny {α : Type} (E : List α) (A : α → ℚ) (c : ℚ) :
    (E.map (fun e => A e * c)).sum = (E.map A).sum * c := by
  induction E with
  | nil => simp
  | cons a t ih => simp only [List.map_cons, List.sum_cons, ih]; ring

theorem abs_sum_leAny {α : Type} (E : List α) (A : α → ℚ) :
    |(E.map A).sum| ≤ (E.map (fun e => |A e|)).sum := by
  induction E with
  | nil => simp
  | cons a t ih =>
      simp only [List.map_cons, List.sum_cons]
      calc |A a + (t.map A).sum| ≤ |A a| + |(t.map A).sum| := abs_add _ _
        _ ≤ |A a| + (t.map (fun e => |A e|)).sum := by linarith

theorem sum_le_sumAny {α : Type} (E : List α) (A B : α → ℚ)
    (h : ∀ e ∈ E, A e ≤ B e) : (E.map A).sum ≤ (E.map B).sum := by
  induction E with
  | nil => simp
  | cons a t ih =>
      simp only [List.map_cons, List.sum_cons]
      have h1 := h a (List.mem_cons_self a t)
      have h2 := ih (fun e he => h e (List.mem_cons_of_mem a he))
      linarith

theorem le_snap (dx pos : ℚ) (hdx : 0 < dx) : pos ≤ snap dx pos := by
  unfold snap
  have h := Int.le_ceil (pos / dx)
  have h2 : dx * (pos / dx) ≤ dx * ⌈pos / dx⌉ := by
    exact mul_le_mul_of_nonneg_left h hdx.le
  have h3 : dx * (pos / dx) = pos := by field_simp
  linarith

theorem snap_lt (dx pos : ℚ) (hdx : 0 < dx) : snap dx pos < pos + dx := by
  unfold snap
  have h := Int.ceil_lt_add_one (pos / dx)
  have h2 : dx * (⌈pos / dx⌉ : ℚ) < dx * (pos / dx + 1) := by
    exact mul_lt_mul_of_pos_left h hdx
  have h3 : dx * (pos / dx) = pos := by field_simp
  nlinarith

theorem snap_le_grid (dx pos : ℚ) (hdx : 0 < dx) (i : ℕ) (h : pos ≤ (i : ℚ) * dx) :
    snap dx pos ≤ (i : ℚ) * dx := by
  unfold snap
  have h1 : pos / dx ≤ (i : ℚ) := by
    rw [div_le_iff₀ hdx]
    exact h
  have h2 : ⌈pos / dx⌉ ≤ (i : ℤ) := Int.ceil_le.mpr (by exact_mod_cast h1)
  have h3 : ((⌈pos / dx⌉ : ℤ) : ℚ) ≤ (i : ℚ) := by exact_mod_cast h2
  have h4 : dx * (⌈pos / dx⌉ : ℚ) ≤ dx * (i : ℚ) := mul_le_mul_of_nonneg_left h3 hdx.le
  linarith [mul_comm dx ((i : ℚ))]

theorem snap_grid_eq (dx pos : ℚ) (hdx : 0 < dx) (i : ℕ)
    (hgt : (i : ℚ) * dx < snap dx pos) (hle : snap dx pos ≤ ((i : ℚ) + 1) * dx) :
    snap dx pos = ((i : ℚ) + 1) * dx := by
  unfold snap at hgt hle ⊢
  have h1 : (i : ℚ) < (⌈pos / dx⌉ : ℚ) := by
    by_contra hc
    push_neg at hc
    have e1 : dx * (⌈pos / dx⌉ : ℚ) ≤ dx * (i : ℚ) := mul_le_mul_of_nonneg_left hc hdx.le
    have e2 : dx * (i : ℚ) = (i : ℚ) * dx := mul_comm _ _
    linarith
  have h2 : (⌈pos / dx⌉ : ℚ) ≤ (i : ℚ) + 1 := by
    by_contra hc
    push_neg at hc
    have e1 : dx * ((i : ℚ) + 1) < dx * (⌈pos / dx⌉ : ℚ) := mul_lt_mul_of_pos_left hc hdx
    have e2 : dx * ((i : ℚ) + 1) = ((i : ℚ) + 1) * dx := mul_comm _ _
    linarith
  have h3 : (i : ℤ) < ⌈pos / dx⌉ := by exact_mod_cast h1
  have h4 : ⌈pos / dx⌉ ≤ (i : ℤ) + 1 := by exact_mod_cast h2
  have h5 : ⌈pos / dx⌉ = (i : ℤ) + 1 := by omega
  rw [h5]
  push_cast
  ring

theorem onAt_step (x dx w pos : ℚ) (hdx : 0 < dx) :
    onAt x w pos = onAt (x - dx) w pos + (if checkStep x pos dx then w else 0) := by
  unfold onAt checkStep
  by_cases h1 : pos ≤ x - dx
  · rw [if_pos (show pos ≤ x by linarith), if_pos h1,
      if_neg (show ¬ (pos ≤ x ∧ x < pos + dx) by rintro ⟨_, h2⟩; linarith), add_zero]
  · rw [if_neg h1]
    by_cases h2 : pos ≤ x
    · rw [if_pos h2, if_pos (show pos ≤ x ∧ x < pos + dx from ⟨h2, by push_neg at h1; linarith⟩),
        zero_add]
    · rw [if_neg h2,
        if_neg (show ¬ (pos ≤ x ∧ x < pos + dx) by rintro ⟨h1q, _⟩; exact h2 h1q), add_zero]

theorem onAt_zero (dx w pos : ℚ) (hdx : 0 < dx) (hpos : 0 ≤ pos) :
    onAt 0 w pos = (if checkStep 0 pos dx then w else 0) := by
  unfold onAt checkStep
  rcases le_or_lt pos 0 with h | h
  · rw [if_pos h, if_pos ⟨h, by linarith⟩]
  · rw [if_neg (not_le.mpr h),
      if_neg (by rintro ⟨h1', _⟩; exact absurd h1' (not_le.mpr h))]

theorem onAt_seg (t xA xB w pos : ℚ) (hsep : pos ≤ xA ∨ xB ≤ pos)
    (h1 : xA ≤ t) (h2 : t < xB) : onAt t w pos = onAt xA w pos := by
  unfold onAt
  rcases hsep with h | h
  · rw [if_pos (le_trans h h1), if_pos h]
  · rw [if_neg (not_le.mpr (lt_of_lt_of_le h2 h)),
      if_neg (not_le.mpr (lt_of_lt_of_le (lt_of_le_of_lt h1 h2) h))]

theorem mAccum_zero (dx w pos : ℚ) (hdx : 0 < dx) (hpos : 0 ≤ pos) :
    mAccum 0 dx w pos = onAt 0 w pos * dx := by
  unfold mAccum onAt
  rcases lt_or_le 0 pos with h | h
  · have hs : ¬ snap dx pos ≤ 0 := not_le.mpr (lt_of_lt_of_le h (le_snap dx pos hdx))
    rw [if_neg hs, if_neg (not_le.mpr h), zero_mul]
  · have hp0 : pos = 0 := le_antisymm h hpos
    subst hp0
    have hsnap0 : snap dx 0 = 0 := by
      unfold snap
      simp
    rw [hsnap0, if_pos (le_refl (0 : ℚ)), if_pos (le_refl (0 : ℚ))]
    ring

theorem mAccum_step (dx w pos : ℚ) (hdx : 0 < dx) (i : ℕ) :
    mAccum (((i : ℚ) + 1) * dx) dx w pos
      = mAccum ((i : ℚ) * dx) dx w pos + onAt (((i : ℚ) + 1) * dx) w pos * dx := by
  have hcast : ((i : ℚ) + 1) * dx = ((i + 1 : ℕ) : ℚ) * dx := by push_cast; ring
  have hgridlt : (i : ℚ) * dx < ((i : ℚ) + 1) * dx := by
    have e : ((i : ℚ) + 1) * dx = (i : ℚ) * dx + dx := by ring
    linarith
  unfold mAccum onAt
  rcases le_or_lt (snap dx pos) ((i : ℚ) * dx) with h1 | h1
  · have h2 : snap dx pos ≤ ((i : ℚ) + 1) * dx := by linarith
    have h3 : pos ≤ ((i : ℚ) + 1) * dx := le_trans (le_snap dx pos hdx) h2
    rw [if_pos h2, if_pos h1, if_pos h3]
    ring
  · rcases le_or_lt (snap dx pos) (((i : ℚ) + 1) * dx) with h2 | h2
    · have hsn := snap_grid_eq dx pos hdx i h1 h2
      have h3 : pos ≤ ((i : ℚ) + 1) * dx := le_trans (le_snap dx pos hdx) h2
      rw [if_pos h2, if_neg (not_le.mpr h1), if_pos h3, hsn]
      ring
    · have h3 : ¬ pos ≤ ((i : ℚ) + 1) * dx := by
        intro hc
        have hs := snap_le_grid dx pos hdx (i + 1) (by rw [← hcast]; exact hc)
        rw [← hcast] at hs
        exact absurd hs (not_le.mpr h2)
      rw [if_neg (not_le.mpr h2), if_neg (not_le.mpr (lt_trans hgridlt h2)), if_neg h3]
      ring

theorem mAccum_err (t dx xA xB w pos : ℚ) (hdx : 0 < dx) (i : ℕ) (hgrid : t = (i : ℚ) * dx)
    (hsep : pos ≤ xA ∨ xB ≤ pos) (h1 : xA ≤ t) (h2 : t < xB) :
    |mAccum t dx w pos - (if pos ≤ xA then w * (t - pos) else 0)| ≤ |w| * dx := by
  unfold mAccum
  rcases hsep with h | h
  · have hpt : pos ≤ t := le_trans h h1
    have hst : snap dx pos ≤ t := by
      rw [hgrid] at hpt ⊢
      exact snap_le_grid dx pos hdx i hpt
    rw [if_pos hst, if_pos h]
    have hA := le_snap dx pos hdx
    have hB := snap_lt dx pos hdx
    rw [show w * (t + dx - snap dx pos) - w * (t - pos)
        = w * (dx - (snap dx pos - pos)) by ring]
    rw [abs_mul]
    have hr : |dx - (snap dx pos - pos)| ≤ dx := by
      rw [abs_of_pos (by linarith)]
      linarith
    exact mul_le_mul_of_nonneg_left hr (abs_nonneg w)
  · have hnt : ¬ snap dx pos ≤ t := by
      intro hc
      have := le_snap dx pos hdx
      linarith [lt_of_lt_of_le h2 h]
    have hna : ¬ pos ≤ xA := by
      intro hc
      linarith [lt_of_le_of_lt (le_trans hc h1) h2, h]
    rw [if_neg hnt, if_neg hna, sub_zero, abs_zero]
    positivity

theorem foldl_vLoadStep (x dx : ℚ) (ls : List LoadDefinition) :
    ∀ B : ℚ,
      ls.foldl (vLoadStep x dx) B
        = B + (ls.map (fun l => if checkStep x (loadPos l) dx then loadVJump l else 0)).sum := by
  induction ls with
  | nil => intro B; simp
  | cons l t ih =>
      intro B
      rw [List.foldl_cons, ih, List.map_cons, List.sum_cons]
      cases l with
      | P val lx =>
          by_cases hc : checkStep x lx dx
          · simp only [vLoadStep, loadPos, loadVJump, if_pos hc]
            ring
          · simp only [vLoadStep, loadPos, loadVJump, if_neg hc]
            ring
      | M val lx => simp only [vLoadStep, loadPos, loadVJump, ite_self]; ring
      | U val x1 x2 => simp only [vLoadStep, loadPos, loadVJump, ite_self]; ring
      | T val x1 x2 peak => simp only [vLoadStep, loadPos, loadVJump, ite_self]; ring

theorem foldl_mLoadStep (x dx : ℚ) (ls : List LoadDefinition) :
    ∀ B : ℚ,
      ls.foldl (mLoadStep x dx) B
        = B + (ls.map (fun l => if checkStep x (loadPos l) dx then loadMJump l else 0)).sum := by
  induction ls with
  | nil => intro B; simp
  | cons l t ih =>
      intro B
      rw [List.foldl_cons, ih, List.map_cons, List.sum_cons]
      cases l with
      | M val lx =>
          by_cases hc : checkStep x lx dx
          · simp only [mLoadStep, loadPos, loadMJump, if_pos hc]
            ring
          · simp only [mLoadStep, loadPos, loadMJump, if_neg hc]
            ring
      | P val lx => simp only [mLoadStep, loadPos, loadMJump, ite_self]; ring
      | U val x1 x2 => simp only [mLoadStep, loadPos, loadMJump, ite_self]; ring
      | T val x1 x2 peak => simp only [mLoadStep, loadPos, loadMJump, ite_self]; ring

theorem foldl_qLoadStep_pm (x : ℚ) (ls : List LoadDefinition)
    (hpm : ∀ l ∈ ls, pmLoad l) : ∀ B : ℚ, ls.foldl (qLoadStep x) B = B := by
  induction ls with
  | nil => intro B; rfl
  | cons l t ih =>
      intro B
      rw [List.foldl_cons]
      have ht : ∀ l' ∈ t, pmLoad l' := fun l' hl' => hpm l' (List.mem_cons_of_mem l hl')
      cases l with
      | P val lx => exact ih ht B
      | M val lx => exact ih ht B
      | U val x1 x2 => exact (hpm _ (List.mem_cons_self _ _)).elim
      | T val x1 x2 peak => exact (hpm _ (List.mem_cons_self _ _)).elim

theorem ite_add_shift (C : Prop) [Decidable C] (a w : ℚ) :
    (if C then a + w else a) = a + (if C then w else 0) := by
  by_cases h : C <;> simp [h]

theorem sweepStep_shape (p : SimulationParams) (r : Reactions) (i : ℕ) (s : ℚ × ℚ) :
    sweepStep p r i s
      = (let dx := sweepDx p
         let sup := resolvedSupports p
         let loads := resolvedLoads p
         let x : ℚ := i * dx
         let Vr :=
           match p.beamType with
           | .cantilever => if checkStep x 0 dx then s.1 + r.Ra else s.1
           | _ =>
               let V1 := if checkStep x sup.1 dx then s.1 + r.Ra else s.1
               if checkStep x sup.2 dx then V1 + r.Rb else V1
         let V := loads.foldl (vLoadStep x dx) Vr - (loads.foldl (qLoadStep x) 0) * dx
         let M0 := s.2 + V * dx
         let M1 :=
           match p.beamType with
           | .cantilever => if checkStep x 0 dx then M0 + -r.Ma else M0
           | _ => M0
         (V, loads.foldl (mLoadStep x dx) M1)) := rfl

theorem sweepStep_pm (p : SimulationParams) (r : Reactions)
    (hpm : ∀ l ∈ resolvedLoads p, pmLoad l) (i : ℕ) (s : ℚ × ℚ) :
    sweepStep p r i s
      = (s.1 + stepJumpV p r i,
         s.2 + (s.1 + stepJumpV p r i) * sweepDx p + stepJumpM p r i) := by
  rw [sweepStep_shape]
  cases hbt : p.beamType
  case cantilever =>
      simp only [stepJumpV, stepJumpM, fEvents, mEvents, resolvedSupports, hbt,
        List.map_append, List.sum_append, List.map_cons, List.sum_cons, List.map_nil,
        List.sum_nil, List.map_map, Function.comp_def, List.nil_append,
        foldl_vLoadStep, foldl_mLoadStep,
        foldl_qLoadStep_pm ((i : ℚ) * sweepDx p) (resolvedLoads p) hpm,
        zero_mul, sub_zero, ite_add_shift, add_zero, zero_add, Prod.mk.injEq]
      constructor <;> ring
  case simplySupported =>
      simp only [stepJumpV, stepJumpM, fEvents, mEvents, resolvedSupports, hbt,
        List.map_append, List.sum_append, List.map_cons, List.sum_cons, List.map_nil,
        List.sum_nil, List.map_map, Function.comp_def, List.nil_append,
        foldl_vLoadStep, foldl_mLoadStep,
        foldl_qLoadStep_pm ((i : ℚ) * sweepDx p) (resolvedLoads p) hpm,
        zero_mul, sub_zero, ite_add_shift, add_zero, zero_add, Prod.mk.injEq]
      constructor <;> ring
  case overhanging =>
      simp only [stepJumpV, stepJumpM, fEvents, mEvents, resolvedSupports, hbt,
        List.map_append, List.sum_append, List.map_cons, List.sum_cons, List.map_nil,
        List.sum_nil, List.map_map, Function.comp_def, List.nil_append,
        foldl_vLoadStep, foldl_mLoadStep,
        foldl_qLoadStep_pm ((i : ℚ) * sweepDx p) (resolvedLoads p) hpm,
        zero_mul, sub_zero, ite_add_shift, add_zero, zero_add, Prod.mk.injEq]
      constructor <;> ring

theorem sweep_pm_closed (p : SimulationParams) (r : Reactions) (hL : 0 < p.length)
    (hpm : ∀ l ∈ resolvedLoads p, pmLoad l)
    (hfe : ∀ e ∈ fEvents p r, 0 ≤ e.2) (hme : ∀ e ∈ mEvents p r, 0 ≤ e.2) :
    ∀ i : ℕ, sweepState p r (i + 1) = (numV p r i, numM p r i) := by
  have hdx := sweepDx_pos p hL
  intro i
  induction i with
  | zero =>
      show sweepStep p r 0 (sweepState p r 0) = _
      rw [show sweepState p r 0 = ((0 : ℚ), (0 : ℚ)) from rfl, sweepStep_pm p r hpm 0 _]
      have hV0 : stepJumpV p r 0 = ((fEvents p r).map (fun e => onAt (0 : ℚ) e.1 e.2)).sum := by
        unfold stepJumpV
        simp only [Nat.cast_zero, zero_mul]
        exact (congrArg List.sum (List.map_congr_left
          (fun e he => onAt_zero (sweepDx p) e.1 e.2 hdx (hfe e he)))).symm
      have hM0 : stepJumpM p r 0 = ((mEvents p r).map (fun e => onAt (0 : ℚ) e.1 e.2)).sum := by
        unfold stepJumpM
        simp only [Nat.cast_zero, zero_mul]
        exact (congrArg List.sum (List.map_congr_left
          (fun e he => onAt_zero (sweepDx p) e.1 e.2 hdx (hme e he)))).symm
      have hMacc : ((fEvents p r).map (fun e => mAccum (0 : ℚ) (sweepDx p) e.1 e.2)).sum
          = (((fEvents p r).map (fun e => onAt (0 : ℚ) e.1 e.2)).sum) * sweepDx p := by
        rw [← sum_map_mulAny]
        exact congrArg List.sum (List.map_congr_left
          (fun e he => mAccum_zero (sweepDx p) e.1 e.2 hdx (hfe e he)))
      simp only [Prod.mk.injEq]
      constructor
      · show (0 : ℚ) + stepJumpV p r 0 = numV p r 0
        unfold numV
        simp only [Nat.cast_zero, zero_mul]
        rw [zero_add, hV0]
      · show (0 : ℚ) + ((0 : ℚ) + stepJumpV p r 0) * sweepDx p + stepJumpM p r 0 = numM p r 0
        unfold numM
        simp only [Nat.cast_zero, zero_mul]
        rw [hMacc, hM0, hV0]
        ring
  | succ n ihn =>
      show sweepStep p r (n + 1) (sweepState p r (n + 1)) = _
      rw [ihn, sweepStep_pm p r hpm (n + 1) _]
      have hxd : ((n + 1 : ℕ) : ℚ) * sweepDx p - sweepDx p = (n : ℚ) * sweepDx p := by
        push_cast
        ring
      have hV : ∀ e ∈ fEvents p r,
          onAt (((n + 1 : ℕ) : ℚ) * sweepDx p) e.1 e.2
            = onAt ((n : ℚ) * sweepDx p) e.1 e.2
              + (if checkStep (((n + 1 : ℕ) : ℚ) * sweepDx p) e.2 (sweepDx p) then e.1
                 else 0) := by
        intro e he
        rw [onAt_step (((n + 1 : ℕ) : ℚ) * sweepDx p) (sweepDx p) e.1 e.2 hdx, hxd]
      have hMev : ∀ e ∈ mEvents p r,
          onAt (((n + 1 : ℕ) : ℚ) * sweepDx p) e.1 e.2
            = onAt ((n : ℚ) * sweepDx p) e.1 e.2
              + (if checkStep (((n + 1 : ℕ) : ℚ) * sweepDx p) e.2 (sweepDx p) then e.1
                 else 0) := by
        intro e he
        rw [onAt_step (((n + 1 : ℕ) : ℚ) * sweepDx p) (sweepDx p) e.1 e.2 hdx, hxd]
      have hMacc : ∀ e ∈ fEvents p r,
          mAccum (((n + 1 : ℕ) : ℚ) * sweepDx p) (sweepDx p) e.1 e.2
            = mAccum ((n : ℚ) * sweepDx p) (sweepDx p) e.1 e.2
              + onAt (((n + 1 : ℕ) : ℚ) * sweepDx p) e.1 e.2 * sweepDx p := by
        intro e he
        have h := mAccum_step (sweepDx p) e.1 e.2 hdx n
        have hc : ((n : ℚ) + 1) * sweepDx p = ((n + 1 : ℕ) : ℚ) * sweepDx p := by
          push_cast
          ring
        rw [hc] at h
        exact h
      have hVsum : numV p r (n + 1) = numV p r n + stepJumpV p r (n + 1) := by
        unfold numV stepJumpV
        rw [List.map_congr_left hV, sum_map_addAny]
      have hMsum : numM p r (n + 1)
          = numM p r n + numV p r (n + 1) * sweepDx p + stepJumpM p r (n + 1) := by
        unfold numM stepJumpM numV
        rw [List.map_congr_left hMacc, sum_map_addAny, sum_map_mulAny,
          List.map_congr_left hMev, sum_map_addAny]
        rw [List.map_congr_left hV, sum_map_addAny]
        ring
      simp only [Prod.mk.injEq]
      constructor
      · rw [hVsum]
      · rw [hMsum, hVsum]

theorem evalV_guard (c : Prop) [Decidable c] (R sup t : ℚ) :
    evalV (if c then { v0 := R, m1 := R, m0 := -(R * sup) } else {}) t
      = if c then R else 0 := by
  by_cases h : c <;> simp [h, evalV]

theorem evalM_guard (c : Prop) [Decidable c] (R sup t : ℚ) :
    evalM (if c then { v0 := R, m1 := R, m0 := -(R * sup) } else {}) t
      = if c then R * (t - sup) else 0 := by
  by_cases h : c <;> simp [h, evalM] <;> ring

theorem polyV_events (xA xB t : ℚ) (p : SimulationParams) (r : Reactions)
    (hpm : ∀ l ∈ resolvedLoads p, pmLoad l) (hxA : 0 ≤ xA) :
    evalV (getPolynomial xA xB p r) t
      = ((fEvents p r).map (fun e => onAt xA e.1 e.2)).sum := by
  unfold getPolynomial
  rw [evalV_foldl]
  have hloads : ((resolvedLoads p).map (fun l => evalV (loadPolyDelta xA xB l) t)).sum
      = ((resolvedLoads p).map (fun l => onAt xA (loadVJump l) (loadPos l))).sum := by
    apply congrArg List.sum
    apply List.map_congr_left
    intro l hl
    cases l with
    | P val lx =>
        by_cases hc : lx ≤ xA <;>
          simp [loadPolyDelta, loadVJump, loadPos, onAt, hc, evalV]
    | M val lx =>
        by_cases hc : lx ≤ xA <;>
          simp [loadPolyDelta, loadVJump, loadPos, onAt, hc, evalV]
    | U val x1 x2 => exact (hpm _ hl).elim
    | T val x1 x2 peak => exact (hpm _ hl).elim
  rw [hloads]
  unfold fEvents
  cases hbt : p.beamType
  case cantilever =>
      simp only [reactionCoeffs, hbt, List.map_append, List.sum_append, List.map_cons,
        List.sum_cons, List.map_nil, List.sum_nil, List.map_map, Function.comp_def,
        List.nil_append, evalV, onAt]
      rw [if_pos hxA]
      ring
  case simplySupported =>
      simp only [reactionCoeffs, polySupports, resolvedSupports, hbt, evalV_polyAdd,
        evalV_guard, List.map_append, List.sum_append, List.map_cons, List.sum_cons,
        List.map_nil, List.sum_nil, List.map_map, Function.comp_def, List.nil_append, onAt]
      ring
  case overhanging =>
      simp only [reactionCoeffs, polySupports, resolvedSupports, hbt, evalV_polyAdd,
        evalV_guard, List.map_append, List.sum_append, List.map_cons, List.sum_cons,
        List.map_nil, List.sum_nil, List.map_map, Function.comp_def, List.nil_append, onAt]
      ring

theorem polyM_events (xA xB t : ℚ) (p : SimulationParams) (r : Reactions)
    (hpm : ∀ l ∈ resolvedLoads p, pmLoad l) (hxA : 0 ≤ xA) :
    evalM (getPolynomial xA xB p r) t
      = ((fEvents p r).map (fun e => if e.2 ≤ xA then e.1 * (t - e.2) else 0)).sum
        + ((mEvents p r).map (fun e => onAt xA e.1 e.2)).sum := by
  unfold getPolynomial
  rw [evalM_foldl]
  have hloads : ((resolvedLoads p).map (fun l => evalM (loadPolyDelta xA xB l) t)).sum
      = ((resolvedLoads p).map
          (fun l => (if loadPos l ≤ xA then loadVJump l * (t - loadPos l) else 0)
            + onAt xA (loadMJump l) (loadPos l))).sum := by
    apply congrArg List.sum
    apply List.map_congr_left
    intro l hl
    cases l with
    | P val lx =>
        by_cases hc : lx ≤ xA <;>
          simp [loadPolyDelta, loadVJump, loadMJump, loadPos, onAt, hc, evalM] <;> ring
    | M val lx =>
        by_cases hc : lx ≤ xA <;>
          simp [loadPolyDelta, loadVJump, loadMJump, loadPos, onAt, hc, evalM]
    | U val x1 x2 => exact (hpm _ hl).elim
    | T val x1 x2 peak => exact (hpm _ hl).elim
  rw [hloads, sum_map_addAny]
  unfold fEvents mEvents
  cases hbt : p.beamType
  case cantilever =>
      simp only [reactionCoeffs, hbt, List.map_append, List.sum_append, List.map_cons,
        List.sum_cons, List.map_nil, List.sum_nil, List.map_map, Function.comp_def,
        List.nil_append, evalM, onAt]
      rw [if_pos hxA, if_pos hxA]
      ring
  case simplySupported =>
      simp only [reactionCoeffs, polySupports, resolvedSupports, hbt, evalM_polyAdd,
        evalM_guard, List.map_append, List.sum_append, List.map_cons, List.sum_cons,
        List.map_nil, List.sum_nil, List.map_map, Function.comp_def, List.nil_append, onAt]
      ring
  case overhanging =>
      simp only [reactionCoeffs, polySupports, resolvedSupports, hbt, evalM_polyAdd,
        evalM_guard, List.map_append, List.sum_append, List.map_cons, List.sum_cons,
        List.map_nil, List.sum_nil, List.map_map, Function.comp_def, List.nil_append, onAt]
      ring

theorem poly_left_eval (p : SimulationParams) (r : Reactions)
    (hbt : p.beamType = .simplySupported) (hcl : p.customLoads = [])
    (hL : 0 < p.length) (ha : 0 < p.loadPosition) (x : ℚ) :
    evalV (getPolynomial 0 p.loadPosition p r) x = r.Ra
    ∧ evalM (getPolynomial 0 p.loadPosition p r) x = r.Ra * x := by
  simp only [getPolynomial, resolvedLoads, hcl, if_true, List.foldl_cons, List.foldl_nil,
    reactionCoeffs, hbt, polySupports, loadPolyDelta]
  rw [if_pos (le_refl (0:ℚ)), if_neg (not_le.mpr hL), if_neg (not_le.mpr ha)]
  refine ⟨?_, ?_⟩ <;>
  · simp only [polyAdd, evalV, evalM]
    ring

theorem poly_right_eval (p : SimulationParams) (r : Reactions)
    (hbt : p.beamType = .simplySupported) (hcl : p.customLoads = [])
    (ha0 : 0 ≤ p.loadPosition) (haL : p.loadPosition < p.length) (x : ℚ) :
    evalV (getPolynomial p.loadPosition p.length p r) x = r.Ra - |p.force|
    ∧ evalM (getPolynomial p.loadPosition p.length p r) x
        = (r.Ra - |p.force|) * x + |p.force| * p.loadPosition := by
  simp only [getPolynomial, resolvedLoads, hcl, if_true, List.foldl_cons, List.foldl_nil,
    reactionCoeffs, hbt, polySupports, loadPolyDelta]
  rw [if_pos ha0, if_neg (not_le.mpr haL), if_pos (le_refl p.loadPosition)]
  refine ⟨?_, ?_⟩ <;>
  · simp only [polyAdd, evalV, evalM]
    ring

/-- C3 (amended): for every beam type and every load list consisting of
point loads and applied moments acting at nonnegative positions, at every
sweep station inside a piecewise segment (all event positions outside the
open segment), the segment polynomial V equals the numeric V exactly, and
the numeric M differs from the polynomial M by at most one integration
step: (sum of jump magnitudes)·dx, an absolute bound. -/
theorem claim_C3_consistency (p : SimulationParams) (hL : 0 < p.length)
    (hpm : ∀ l ∈ resolvedLoads p, pmLoad l)
    (hfe : ∀ e ∈ fEvents p (calcReactions p), 0 ≤ e.2)
    (hme : ∀ e ∈ mEvents p (calcReactions p), 0 ≤ e.2)
    (xA xB : ℚ) (hxA : 0 ≤ xA)
    (hsf : ∀ e ∈ fEvents p (calcReactions p), e.2 ≤ xA ∨ xB ≤ e.2)
    (hsm : ∀ e ∈ mEvents p (calcReactions p), e.2 ≤ xA ∨ xB ≤ e.2)
    (i : ℕ) (hi : i < sweepN + 1)
    (hin1 : xA ≤ (i : ℚ) * sweepDx p) (hin2 : (i : ℚ) * sweepDx p < xB) :
    (calculateAnalyticalDiagrams p).Vs[i]?
        = some (evalV (getPolynomial xA xB p (calcReactions p)) ((i : ℚ) * sweepDx p))
    ∧ ∃ m : ℚ, (calculateAnalyticalDiagrams p).Ms[i]? = some m
        ∧ |m - evalM (getPolynomial xA xB p (calcReactions p)) ((i : ℚ) * sweepDx p)|
            ≤ eventBound p (calcReactions p) * sweepDx p := by
  have hdx := sweepDx_pos p hL
  have hVs : (calculateAnalyticalDiagrams p).Vs[i]?
      = some ((sweepState p (calcReactions p) (i + 1)).1) := by
    simp [calculateAnalyticalDiagrams, List.getElem?_map, List.getElem?_range hi]
  have hMs : (calculateAnalyticalDiagrams p).Ms[i]?
      = some ((sweepState p (calcReactions p) (i + 1)).2) := by
    simp [calculateAnalyticalDiagrams, List.getElem?_map, List.getElem?_range hi]
  have hclosed := sweep_pm_closed p (calcReactions p) hL hpm hfe hme i
  have hVstation : numV p (calcReactions p) i
      = evalV (getPolynomial xA xB p (calcReactions p)) ((i : ℚ) * sweepDx p) := by
    rw [polyV_events xA xB _ p _ hpm hxA]
    unfold numV
    exact congrArg List.sum (List.map_congr_left
      (fun e he => onAt_seg _ xA xB e.1 e.2 (hsf e he) hin1 hin2))
  have hMdiff : |numM p (calcReactions p) i
        - evalM (getPolynomial xA xB p (calcReactions p)) ((i : ℚ) * sweepDx p)|
      ≤ eventBound p (calcReactions p) * sweepDx p := by
    rw [polyM_events xA xB _ p _ hpm hxA]
    unfold numM
    have hmm : ((mEvents p (calcReactions p)).map
          (fun e => onAt ((i : ℚ) * sweepDx p) e.1 e.2)).sum
        = ((mEvents p (calcReactions p)).map (fun e => onAt xA e.1 e.2)).sum :=
      congrArg List.sum (List.map_congr_left
        (fun e he => onAt_seg _ xA xB e.1 e.2 (hsm e he) hin1 hin2))
    rw [hmm]
    have e1 : ∀ a b c : ℚ, a + c - (b + c) = a - b := fun a b c => by ring
    rw [e1, ← sum_map_subAny]
    calc |((fEvents p (calcReactions p)).map
            (fun e => mAccum ((i : ℚ) * sweepDx p) (sweepDx p) e.1 e.2
              - (if e.2 ≤ xA then e.1 * ((i : ℚ) * sweepDx p - e.2) else 0))).sum|
        ≤ ((fEvents p (calcReactions p)).map
            (fun e => |mAccum ((i : ℚ) * sweepDx p) (sweepDx p) e.1 e.2
              - (if e.2 ≤ xA then e.1 * ((i : ℚ) * sweepDx p - e.2) else 0)|)).sum :=
          abs_sum_leAny _ _
      _ ≤ ((fEvents p (calcReactions p)).map (fun e => |e.1| * sweepDx p)).sum :=
          sum_le_sumAny _ _ _ (fun e he =>
            mAccum_err ((i : ℚ) * sweepDx p) (sweepDx p) xA xB e.1 e.2 hdx i rfl
              (hsf e he) hin1 hin2)
      _ = eventBound p (calcReactions p) * sweepDx p := by
          unfold eventBound
          rw [sum_map_mulAny]
  constructor
  · rw [hVs, hclosed]
    show some (numV p (calcReactions p) i) = _
    rw [hVstation]
  · refine ⟨numM p (calcReactions p) i, ?_, hMdiff⟩
    rw [hMs, hclosed]

/-- C3 witness: scenario A (simply supported, L = 8, events at 0, 8 and the
load at 4), segment [0, 4], station i = 1: the numeric V equals the segment
polynomial V and the numeric M is within (sum of jump magnitudes)·dx of the
polynomial M. -/
theorem claim_C3_consistency_witness :
    (calculateAnalyticalDiagrams cfgA).Vs[1]?
        = some (evalV (getPolynomial 0 4 cfgA (calcReactions cfgA)) ((1 : ℚ) * sweepDx cfgA))
    ∧ ∃ m : ℚ, (calculateAnalyticalDiagrams cfgA).Ms[1]? = some m
        ∧ |m - evalM (getPolynomial 0 4 cfgA (calcReactions cfgA)) ((1 : ℚ) * sweepDx cfgA)|
            ≤ eventBound cfgA (calcReactions cfgA) * sweepDx cfgA := by
  have hF2 : (fEvents cfgA (calcReactions cfgA)).map Prod.snd = [0, 8, 4] := by
    simp [fEvents, resolvedSupports, resolvedLoads, loadPos, cfgA]
  have hM2 : (mEvents cfgA (calcReactions cfgA)).map Prod.snd = [4] := by
    simp [mEvents, resolvedLoads, loadPos, cfgA]
  have h := claim_C3_consistency cfgA (by norm_num [cfgA])
    (by
      intro l hl
      simp [resolvedLoads, cfgA] at hl
      subst hl
      trivial)
    (by
      intro e he
      have h2 : e.2 ∈ [(0 : ℚ), 8, 4] := by
        rw [← hF2]
        exact List.mem_map_of_mem Prod.snd he
      simp only [List.mem_cons, List.not_mem_nil, or_false] at h2
      rcases h2 with h | h | h <;> rw [h] <;> norm_num)
    (by
      intro e he
      have h2 : e.2 ∈ [(4 : ℚ)] := by
        rw [← hM2]
        exact List.mem_map_of_mem Prod.snd he
      simp only [List.mem_cons, List.not_mem_nil, or_false] at h2
      rw [h2]
      norm_num)
    0 4 (le_refl 0)
    (by
      intro e he
      have h2 : e.2 ∈ [(0 : ℚ), 8, 4] := by
        rw [← hF2]
        exact List.mem_map_of_mem Prod.snd he
      simp only [List.mem_cons, List.not_mem_nil, or_false] at h2
      rcases h2 with h | h | h <;> rw [h] <;> norm_num)
    (by
      intro e he
      have h2 : e.2 ∈ [(4 : ℚ)] := by
        rw [← hM2]
        exact List.mem_map_of_mem Prod.snd he
      simp only [List.mem_cons, List.not_mem_nil, or_false] at h2
      rw [h2]
      norm_num)
    1 (by norm_num [sweepN])
    (by norm_num [sweepDx, sweepN, cfgA])
    (by norm_num [sweepDx, sweepN, cfgA])
  simpa using h

/-- C3 counterexample: in scenario A the numeric M at station 1 is 1000 while
the segment polynomial [0, 4) gives M(1/50) = 500: the error (500) is 100% of
the local magnitude, far beyond the claimed 1% tolerance (and it cannot
tighten with sample count, which is fixed at n = 400 in the code). -/
theorem claim_C3_consistency_cex :
    (calculateAnalyticalDiagrams cfgA).Ms[1]? = some 1000
    ∧ evalM (getPolynomial 0 cfgA.loadPosition cfgA
        (calculateAnalyticalDiagrams cfgA).reactions) (sweepDx cfgA) = 500
    ∧ ¬ (|(1000:ℚ) - 500| ≤ 1 / 100 * |(500:ℚ)|) := by
  refine ⟨?_, ?_, by norm_num⟩
  · have h1 : (calculateAnalyticalDiagrams cfgA).Ms[1]?
        = some ((sweepState cfgA (calcReactions cfgA) (1 + 1)).2) := by
      simp [calculateAnalyticalDiagrams, List.getElem?_map,
        List.getElem?_range (show (1:ℕ) < sweepN + 1 by norm_num [sweepN])]
    have e2 : sweepState cfgA (calcReactions cfgA) (1 + 1)
        = sweepStep cfgA (calcReactions cfgA) 1
            (sweepStep cfgA (calcReactions cfgA) 0 (0, 0)) := rfl
    rw [h1, e2]
    norm_num [sweepStep, sweepDx, sweepN, calcReactions, resolvedSupports,
      resolvedLoads, loadAccum, accStep, cfgA, checkStep, List.foldl_cons, List.foldl_nil]
  · norm_num [evalM, getPolynomial, reactionCoeffs, polySupports, polyAdd, loadPolyDelta,
      resolvedLoads, calculateAnalyticalDiagrams, calcReactions, loadAccum, accStep,
      resolvedSupports, sweepDx, sweepN, cfgA, List.foldl_cons, List.foldl_nil]


/-- The side condition the piecewise builder guarantees for a boundary b
between adjacent segments [xA1, b] and [b, xB2]: no load discontinuity point
lies strictly inside either open segment (every such point is ≤ xA1, equal
to b, or ≥ xB2), and range loads are properly oriented. -/
def loadAwayFrom (xA1 b xB2 : ℚ) : LoadDefinition → Prop
  | .P _ x => x ≤ xA1 ∨ x = b ∨ xB2 ≤ x
  | .M _ x => x ≤ xA1 ∨ x = b ∨ xB2 ≤ x
  | .U _ x1 x2 =>
      x1 < x2 ∧ (x1 ≤ xA1 ∨ x1 = b ∨ xB2 ≤ x1) ∧ (x2 ≤ xA1 ∨ x2 = b ∨ xB2 ≤ x2)
  | .T _ x1 x2 _ =>
      x1 < x2 ∧ (x1 ≤ xA1 ∨ x1 = b ∨ xB2 ≤ x1) ∧ (x2 ≤ xA1 ∨ x2 = b ∨ xB2 ≤ x2)

/-- A point load's contribution to the shear jump at b. -/
def pJumpTerm (b : ℚ) : LoadDefinition → ℚ
  | .P val x => if x = b then val else 0
  | _ => 0

/-- An applied moment's contribution to the moment jump at b. -/
def mJumpTerm (b : ℚ) : LoadDefinition → ℚ
  | .M val x => if x = b then val else 0
  | _ => 0

theorem pJumpAt_eq (b : ℚ) (loads : List LoadDefinition) :
    pJumpAt b loads = (loads.map (pJumpTerm b)).sum := by
  unfold pJumpAt
  congr 1

theorem mJumpAt_eq (b : ℚ) (loads : List LoadDefinition) :
    mJumpAt b loads = (loads.map (mJumpTerm b)).sum := by
  unfold mJumpAt
  congr 1

theorem sum_map_sub (f g : LoadDefinition → ℚ) (l : List LoadDefinition) :
    (l.map f).sum - (l.map g).sum = (l.map fun a => f a - g a).sum := by
  induction l with
  | nil => simp
  | cons a as ih => simp only [List.map_cons, List.sum_cons]; rw [← ih]; ring

theorem sum_map_neg (f : LoadDefinition → ℚ) (l : List LoadDefinition) :
    (l.map fun a => -(f a)).sum = -(l.map f).sum := by
  induction l with
  | nil => simp
  | cons a as ih => simp only [List.map_cons, List.sum_cons]; rw [ih]; ring


theorem loadDelta_jump (xA1 b xB2 : ℚ) (h1 : xA1 < b) (h2 : b < xB2)
    (l : LoadDefinition) (hl : loadAwayFrom xA1 b xB2 l) :
    evalV (loadPolyDelta b xB2 l) b - evalV (loadPolyDelta xA1 b l) b
      = -(pJumpTerm b l)
    ∧ evalM (loadPolyDelta b xB2 l) b - evalM (loadPolyDelta xA1 b l) b
      = -(mJumpTerm b l) := by
  cases l with
  | P val x =>
      rcases hl with h | h | h
      · have hxb : x ≤ b := le_of_lt (lt_of_le_of_lt h h1)
        have hne : x ≠ b := ne_of_lt (lt_of_le_of_lt h h1)
        simp only [loadPolyDelta, pJumpTerm, mJumpTerm, if_pos h, if_pos hxb, if_neg hne,
          evalV, evalM]
        constructor <;> ring
      · subst h
        simp only [loadPolyDelta, pJumpTerm, mJumpTerm, if_neg (not_le.mpr h1),
          if_pos (le_refl x), eq_self_iff_true, if_true, evalV, evalM]
        constructor <;> ring
      · have hxA : ¬ x ≤ xA1 := not_le.mpr (lt_of_lt_of_le (lt_trans h1 h2) h)
        have hxb : ¬ x ≤ b := not_le.mpr (lt_of_lt_of_le h2 h)
        have hne : x ≠ b := fun hc => hxb (le_of_eq hc)
        simp only [loadPolyDelta, pJumpTerm, mJumpTerm, if_neg hxA, if_neg hxb, if_neg hne,
          evalV, evalM]
        constructor <;> ring
  | M val x =>
      rcases hl with h | h | h
      · have hxb : x ≤ b := le_of_lt (lt_of_le_of_lt h h1)
        have hne : x ≠ b := ne_of_lt (lt_of_le_of_lt h h1)
        simp only [loadPolyDelta, pJumpTerm, mJumpTerm, if_pos h, if_pos hxb, if_neg hne,
          evalV, evalM]
        constructor <;> ring
      · subst h
        simp only [loadPolyDelta, pJumpTerm, mJumpTerm, if_neg (not_le.mpr h1),
          if_pos (le_refl x), eq_self_iff_true, if_true, evalV, evalM]
        constructor <;> ring
      · have hxA : ¬ x ≤ xA1 := not_le.mpr (lt_of_lt_of_le (lt_trans h1 h2) h)
        have hxb : ¬ x ≤ b := not_le.mpr (lt_of_lt_of_le h2 h)
        have hne : x ≠ b := fun hc => hxb (le_of_eq hc)
        simp only [loadPolyDelta, pJumpTerm, mJumpTerm, if_neg hxA, if_neg hxb, if_neg hne,
          evalV, evalM]
        constructor <;> ring
  | U val x1 x2 =>
      obtain ⟨h12, hA, hB⟩ := hl
      simp only [pJumpTerm, mJumpTerm, neg_zero]
      rcases hA with a1 | a2 | a3
      · rcases hB with b1 | b2 | b3
        · -- fully left of both segments
          have hb : x2 ≤ b := le_of_lt (lt_of_le_of_lt b1 h1)
          simp only [loadPolyDelta, if_pos b1, if_pos hb, evalV, evalM]
          constructor <;> ring
        · -- ends exactly at b: seg1 spanning, seg2 fully-left
          subst b2
          have hnb : ¬ x2 ≤ xA1 := not_le.mpr h1
          simp only [loadPolyDelta, if_neg hnb, if_pos (le_refl x2),
            if_pos (And.intro a1 (le_refl x2)), evalV, evalM]
          constructor <;> ring
        · -- spans both segments
          have hnbA : ¬ x2 ≤ xA1 := not_le.mpr (lt_of_lt_of_le (lt_trans h1 h2) b3)
          have hnbb : ¬ x2 ≤ b := not_le.mpr (lt_of_lt_of_le h2 b3)
          have hge1 : x2 ≥ b := le_of_lt (lt_of_lt_of_le h2 b3)
          have ha1b : x1 ≤ b := le_of_lt (lt_of_le_of_lt a1 h1)
          simp only [loadPolyDelta, if_neg hnbA, if_neg hnbb,
            if_pos (And.intro a1 hge1), if_pos (And.intro ha1b b3), evalV, evalM]
          constructor <;> ring
      · rcases hB with b1 | b2 | b3
        · exfalso; linarith
        · exfalso; linarith
        · -- starts exactly at b: seg1 nothing, seg2 spanning
          subst a2
          have hnbA : ¬ x2 ≤ xA1 := not_le.mpr (lt_trans h1 h12)
          have hnbb : ¬ x2 ≤ x1 := not_le.mpr h12
          have hnspan1 : ¬ (x1 ≤ xA1 ∧ x2 ≥ x1) := fun hc => (not_le.mpr h1) hc.1
          simp only [loadPolyDelta, if_neg hnbA, if_neg hnbb, if_neg hnspan1,
            if_pos (And.intro (le_refl x1) b3), evalV, evalM]
          constructor <;> ring
      · rcases hB with b1 | b2 | b3
        · exfalso; linarith
        · exfalso; linarith
        · -- fully right of both segments
          have hx1b : ¬ x1 ≤ xA1 := not_le.mpr (lt_of_lt_of_le (lt_trans h1 h2) a3)
          have hx1bb : ¬ x1 ≤ b := not_le.mpr (lt_of_lt_of_le h2 a3)
          have hnbA : ¬ x2 ≤ xA1 :=
            not_le.mpr (lt_trans (lt_of_lt_of_le (lt_trans h1 h2) a3) h12)
          have hnbb : ¬ x2 ≤ b := not_le.mpr (lt_trans (lt_of_lt_of_le h2 a3) h12)
          have hnspan1 : ¬ (x1 ≤ xA1 ∧ x2 ≥ b) := fun hc => hx1b hc.1
          have hnspan2 : ¬ (x1 ≤ b ∧ x2 ≥ xB2) := fun hc => hx1bb hc.1
          simp only [loadPolyDelta, if_neg hnbA, if_neg hnbb, if_neg hnspan1,
            if_neg hnspan2, evalV, evalM]
          constructor <;> ring
  | T val x1 x2 pk =>
      obtain ⟨h12, hA, hB⟩ := hl
      have hLLne : x2 - x1 ≠ 0 := sub_ne_zero.mpr (ne_of_gt h12)
      simp only [pJumpTerm, mJumpTerm, neg_zero]
      rcases hA with a1 | a2 | a3
      · rcases hB with b1 | b2 | b3
        · have hb : x2 ≤ b := le_of_lt (lt_of_le_of_lt b1 h1)
          simp only [loadPolyDelta, if_pos b1, if_pos hb, evalV, evalM]
          constructor <;> ring
        · subst b2
          have hnb : ¬ x2 ≤ xA1 := not_le.mpr h1
          have hx1lt : x1 < x2 := h12
          simp only [loadPolyDelta, if_neg hnb, if_pos (le_refl x2),
            if_pos (And.intro a1 (le_refl x2)), evalV, evalM]
          cases pk <;>
            simp only [show (PeakSide.left = PeakSide.right) = False by
                simp, show (PeakSide.right = PeakSide.right) = True by simp,
              if_true, if_false] <;>
            constructor <;>
            field_simp <;>
            ring
        · have hnbA : ¬ x2 ≤ xA1 := not_le.mpr (lt_of_lt_of_le (lt_trans h1 h2) b3)
          have hnbb : ¬ x2 ≤ b := not_le.mpr (lt_of_lt_of_le h2 b3)
          have hge1 : x2 ≥ b := le_of_lt (lt_of_lt_of_le h2 b3)
          have ha1b : x1 ≤ b := le_of_lt (lt_of_le_of_lt a1 h1)
          simp only [loadPolyDelta, if_neg hnbA, if_neg hnbb,
            if_pos (And.intro a1 hge1), if_pos (And.intro ha1b b3), evalV, evalM]
          cases pk <;>
            simp only [show (PeakSide.left = PeakSide.right) = False by
                simp, show (PeakSide.right = PeakSide.right) = True by simp,
              if_true, if_false] <;>
            constructor <;> ring
      · rcases hB with b1 | b2 | b3
        · exfalso; linarith
        · exfalso; linarith
        · subst a2
          have hnbA : ¬ x2 ≤ xA1 := not_le.mpr (lt_trans h1 h12)
          have hnbb : ¬ x2 ≤ x1 := not_le.mpr h12
          have hnspan1 : ¬ (x1 ≤ xA1 ∧ x2 ≥ x1) := fun hc => (not_le.mpr h1) hc.1
          simp only [loadPolyDelta, if_neg hnbA, if_neg hnbb, if_neg hnspan1,
            if_pos (And.intro (le_refl x1) b3), evalV, evalM]
          cases pk <;>
            simp only [show (PeakSide.left = PeakSide.right) = False by
                simp, show (PeakSide.right = PeakSide.right) = True by simp,
              if_true, if_false] <;>
            constructor <;> ring
      · rcases hB with b1 | b2 | b3
        · exfalso; linarith
        · exfalso; linarith
        · have hx1b : ¬ x1 ≤ xA1 := not_le.mpr (lt_of_lt_of_le (lt_trans h1 h2) a3)
          have hx1bb : ¬ x1 ≤ b := not_le.mpr (lt_of_lt_of_le h2 a3)
          have hnbA : ¬ x2 ≤ xA1 :=
            not_le.mpr (lt_trans (lt_of_lt_of_le (lt_trans h1 h2) a3) h12)
          have hnbb : ¬ x2 ≤ b := not_le.mpr (lt_trans (lt_of_lt_of_le h2 a3) h12)
          have hnspan1 : ¬ (x1 ≤ xA1 ∧ x2 ≥ b) := fun hc => hx1b hc.1
          have hnspan2 : ¬ (x1 ≤ b ∧ x2 ≥ xB2) := fun hc => hx1bb hc.1
          simp only [loadPolyDelta, if_neg hnbA, if_neg hnbb, if_neg hnspan1,
            if_neg hnspan2, evalV, evalM]
          constructor <;> ring


theorem support_delta_jump (xA1 b xB2 s R : ℚ) (h1 : xA1 < b) (h2 : b < xB2)
    (hc : s ≤ xA1 ∨ s = b ∨ xB2 ≤ s) :
    evalV (if s ≤ b then ({ v0 := R, m1 := R, m0 := -(R * s) } : PolyCoeffs) else {}) b
      - evalV (if s ≤ xA1 then ({ v0 := R, m1 := R, m0 := -(R * s) } : PolyCoeffs) else {}) b
      = (if s = b then R else 0)
    ∧ evalM (if s ≤ b then ({ v0 := R, m1 := R, m0 := -(R * s) } : PolyCoeffs) else {}) b
      - evalM (if s ≤ xA1 then ({ v0 := R, m1 := R, m0 := -(R * s) } : PolyCoeffs) else {}) b
      = 0 := by
  rcases hc with h | h | h
  · have hsb : s ≤ b := le_of_lt (lt_of_le_of_lt h h1)
    have hne : s ≠ b := ne_of_lt (lt_of_le_of_lt h h1)
    simp only [if_pos h, if_pos hsb, if_neg hne, evalV, evalM]
    constructor <;> ring
  · subst h
    simp only [if_neg (not_le.mpr h1), if_pos (le_refl s), eq_self_iff_true, if_true,
      evalV, evalM]
    constructor <;> ring
  · have hsA : ¬ s ≤ xA1 := not_le.mpr (lt_of_lt_of_le (lt_trans h1 h2) h)
    have hsb : ¬ s ≤ b := not_le.mpr (lt_of_lt_of_le h2 h)
    have hne : s ≠ b := fun hc => hsb (le_of_eq hc)
    simp only [if_neg hsA, if_neg hsb, if_neg hne, evalV, evalM]
    constructor <;> ring

theorem reaction_jump (p : SimulationParams) (r : Reactions) (xA1 b xB2 : ℚ)
    (h1 : xA1 < b) (h2 : b < xB2)
    (hsup : p.beamType = .cantilever
      ∨ (((polySupports p).1 ≤ xA1 ∨ (polySupports p).1 = b ∨ xB2 ≤ (polySupports p).1)
        ∧ ((polySupports p).2 ≤ xA1 ∨ (polySupports p).2 = b ∨ xB2 ≤ (polySupports p).2))) :
    evalV (reactionCoeffs b p r) b - evalV (reactionCoeffs xA1 p r) b = supportJump b p r
    ∧ evalM (reactionCoeffs b p r) b - evalM (reactionCoeffs xA1 p r) b = 0 := by
  rcases hb : p.beamType with _ | _ | _
  case cantilever =>
    constructor <;> simp [reactionCoeffs, supportJump, hb, evalV, evalM]
  all_goals
    rcases hsup with h | ⟨hA, hB⟩
    · rw [hb] at h; cases h
    · have d1 := support_delta_jump xA1 b xB2 (polySupports p).1 r.Ra h1 h2 hA
      have d2 := support_delta_jump xA1 b xB2 (polySupports p).2 r.Rb h1 h2 hB
      simp only [reactionCoeffs, supportJump, hb, evalV_polyAdd, evalM_polyAdd]
      constructor
      · linarith [d1.1, d2.1]
      · linarith [d1.2, d2.2]

/-- C4 (amended): across a boundary b between two adjacent piecewise segments
[xA1, b] and [b, xB2] (no load discontinuity point or support strictly inside
either segment), the two segments' M polynomials evaluate equally at b except
for applied moments acting exactly at b, where M jumps by exactly their
summed magnitude; the V polynomials evaluate equally at b except for point
loads at b, where V jumps (downward) by their summed magnitude, AND — the
correction to the original claim — at interior support positions, where V
jumps by that support's reaction (supportJump); see the counterexample. -/
theorem claim_C4_boundary_jumps (p : SimulationParams) (r : Reactions) (xA1 b xB2 : ℚ)
    (h1 : xA1 < b) (h2 : b < xB2)
    (hloads : ∀ l ∈ resolvedLoads p, loadAwayFrom xA1 b xB2 l)
    (hsup : p.beamType = .cantilever
      ∨ (((polySupports p).1 ≤ xA1 ∨ (polySupports p).1 = b ∨ xB2 ≤ (polySupports p).1)
        ∧ ((polySupports p).2 ≤ xA1 ∨ (polySupports p).2 = b ∨ xB2 ≤ (polySupports p).2))) :
    evalV (getPolynomial b xB2 p r) b - evalV (getPolynomial xA1 b p r) b
      = supportJump b p r - pJumpAt b (resolvedLoads p)
    ∧ evalM (getPolynomial b xB2 p r) b - evalM (getPolynomial xA1 b p r) b
      = -(mJumpAt b (resolvedLoads p)) := by
  have hr := reaction_jump p r xA1 b xB2 h1 h2 hsup
  have hV2 := evalV_foldl b xB2 b (resolvedLoads p) (reactionCoeffs b p r)
  have hV1 := evalV_foldl xA1 b b (resolvedLoads p) (reactionCoeffs xA1 p r)
  have hM2 := evalM_foldl b xB2 b (resolvedLoads p) (reactionCoeffs b p r)
  have hM1 := evalM_foldl xA1 b b (resolvedLoads p) (reactionCoeffs xA1 p r)
  constructor
  · simp only [getPolynomial]
    rw [hV2, hV1]
    have e1 : ((resolvedLoads p).map fun l => evalV (loadPolyDelta b xB2 l) b).sum
        - ((resolvedLoads p).map fun l => evalV (loadPolyDelta xA1 b l) b).sum
        = -(pJumpAt b (resolvedLoads p)) := by
      rw [sum_map_sub, pJumpAt_eq,
        show ((resolvedLoads p).map fun l =>
              evalV (loadPolyDelta b xB2 l) b - evalV (loadPolyDelta xA1 b l) b)
            = (resolvedLoads p).map fun l => -(pJumpTerm b l) from
          List.map_congr_left fun l hl =>
            (loadDelta_jump xA1 b xB2 h1 h2 l (hloads l hl)).1]
      exact sum_map_neg _ _
    linarith [hr.1, e1]
  · simp only [getPolynomial]
    rw [hM2, hM1]
    have e1 : ((resolvedLoads p).map fun l => evalM (loadPolyDelta b xB2 l) b).sum
        - ((resolvedLoads p).map fun l => evalM (loadPolyDelta xA1 b l) b).sum
        = -(mJumpAt b (resolvedLoads p)) := by
      rw [sum_map_sub, mJumpAt_eq,
        show ((resolvedLoads p).map fun l =>
              evalM (loadPolyDelta b xB2 l) b - evalM (loadPolyDelta xA1 b l) b)
            = (resolvedLoads p).map fun l => -(mJumpTerm b l) from
          List.map_congr_left fun l hl =>
            (loadDelta_jump xA1 b xB2 h1 h2 l (hloads l hl)).2]
      exact sum_map_neg _ _
    linarith [hr.2, e1]

/-- C4 witness: for the overhanging beam cfgOver at the load point b = 4
between the segments [2, 4] and [4, 6], M is continuous (no applied moment at
4) and V jumps by exactly the point load: supportJump is 0 and pJumpAt is
10. -/
theorem claim_C4_boundary_jumps_witness :
    evalV (getPolynomial 4 6 cfgOver (calcReactions cfgOver)) 4
      - evalV (getPolynomial 2 4 cfgOver (calcReactions cfgOver)) 4
      = supportJump 4 cfgOver (calcReactions cfgOver)
        - pJumpAt 4 (resolvedLoads cfgOver)
    ∧ evalM (getPolynomial 4 6 cfgOver (calcReactions cfgOver)) 4
      - evalM (getPolynomial 2 4 cfgOver (calcReactions cfgOver)) 4
      = -(mJumpAt 4 (resolvedLoads cfgOver)) :=
  claim_C4_boundary_jumps cfgOver (calcReactions cfgOver) 2 4 6 (by norm_num)
    (by norm_num)
    (by
      intro l hl
      have : l = .P 10 4 := by
        simpa [resolvedLoads, cfgOver, cfgA] using hl
      subst this
      simp [loadAwayFrom])
    (Or.inr (by norm_num [polySupports, cfgOver, cfgA]))

/-- C4 counterexample: at the boundary b = 2 of cfgOver (the interior support
A, where no point load acts: the only load is P 10 at x = 4), the V
polynomials of the adjacent segments [0, 2] and [2, 4] differ at b by the
support reaction 5, refuting "V is continuous except at point-load
locations". -/
theorem claim_C4_boundary_jumps_cex :
    evalV (getPolynomial 2 4 cfgOver (calcReactions cfgOver)) 2
      - evalV (getPolynomial 0 2 cfgOver (calcReactions cfgOver)) 2 = 5
    ∧ pJumpAt 2 (resolvedLoads cfgOver) = 0 := by
  constructor
  · norm_num [getPolynomial, reactionCoeffs, polySupports, polyAdd, loadPolyDelta,
      resolvedLoads, calcReactions, loadAccum, accStep, resolvedSupports, evalV,
      cfgOver, cfgA, List.foldl_cons, List.foldl_nil]
  · norm_num [pJumpAt, resolvedLoads, cfgOver, cfgA]


theorem pairwise_zip_tail {R : ℚ → ℚ → Prop} :
    ∀ {l : List ℚ}, l.Pairwise R → ∀ q ∈ l.zip l.tail, R q.1 q.2 := by
  intro l
  induction l with
  | nil => intro _ q hq; simp at hq
  | cons a t ih =>
      intro hp q hq
      cases t with
      | nil => simp at hq
      | cons b t2 =>
          simp only [List.tail_cons, List.zip_cons_cons] at hq
          rcases List.mem_cons.mp hq with hq1 | hq1
          · subst hq1
            exact (List.pairwise_cons.mp hp).1 b (by simp)
          · exact ih (List.pairwise_cons.mp hp).2 q hq1

theorem filterMap_keep_all {α β : Type} (f : α → β) (c : α → Prop) [DecidablePred c] :
    ∀ l : List α, (∀ a ∈ l, ¬ c a) →
      (l.filterMap fun a => if c a then none else some (f a)) = l.map f := by
  intro l
  induction l with
  | nil => intro _; rfl
  | cons a t ih =>
      intro h
      rw [List.filterMap_cons, if_neg (h a (by simp))]
      simp only [List.map_cons]
      rw [ih fun a ha => h a (by simp [ha])]

theorem sorted_le_getLast :
    ∀ (l : List ℚ) (hne : l ≠ []), l.Sorted (fun a b => a ≤ b) →
      ∀ a ∈ l, a ≤ l.getLast hne := by
  intro l
  induction l with
  | nil => intro hne; exact absurd rfl hne
  | cons x t ih =>
      intro _ hs a ha
      cases t with
      | nil => simp at ha; simp [ha]
      | cons y t2 =>
          rw [List.getLast_cons (by simp)]
          rcases List.mem_cons.mp ha with rfl | ha2
          · have hxy : a ≤ y := (List.pairwise_cons.mp hs).1 y (by simp)
            have := ih (by simp) (List.pairwise_cons.mp hs).2 y (by simp)
            exact le_trans hxy this
          · exact ih (by simp) (List.pairwise_cons.mp hs).2 a ha2

theorem zip_tail_chain :
    ∀ (l : List ℚ), List.Chain' (fun q q' : ℚ × ℚ => q.2 = q'.1) (l.zip l.tail) := by
  intro l
  induction l with
  | nil => simp
  | cons a t ih =>
      cases t with
      | nil => simp
      | cons b t2 =>
          simp only [List.tail_cons, List.zip_cons_cons]
          cases t2 with
          | nil => simp
          | cons c t3 =>
              simp only [List.tail_cons, List.zip_cons_cons] at ih ⊢
              exact List.Chain'.cons rfl ih

theorem zip_tail_getLast :
    ∀ (l : List ℚ) (a b : ℚ),
      ∃ c, ((a :: b :: l).zip (b :: l)).getLast? = some (c, (b :: l).getLast (by simp)) := by
  intro l
  induction l with
  | nil => intro a b; exact ⟨a, rfl⟩
  | cons d t ih =>
      intro a b
      obtain ⟨c, hc⟩ := ih b d
      refine ⟨c, ?_⟩
      simp only [List.tail_cons, List.zip_cons_cons] at hc ⊢
      rw [List.getLast?_cons_cons]
      rw [hc]
      congr 1

theorem zip_cover :
    ∀ (l : List ℚ) (a b x : ℚ), a ≤ x → x ≤ (a :: b :: l).getLast (by simp) →
      ∃ q ∈ (a :: b :: l).zip (b :: l), q.1 ≤ x ∧ x ≤ q.2 := by
  intro l
  induction l with
  | nil =>
      intro a b x hax hxb
      exact ⟨(a, b), by simp, hax, by simpa using hxb⟩
  | cons c t ih =>
      intro a b x hax hxb
      rcases le_or_lt x b with hxb2 | hbx
      · exact ⟨(a, b), by simp, hax, hxb2⟩
      · obtain ⟨q, hq, hqx⟩ := ih b c x hbx.le
          (by rw [List.getLast_cons (by simp)] at hxb; exact hxb)
        refine ⟨q, ?_, hqx⟩
        simp only [List.tail_cons, List.zip_cons_cons] at hq ⊢
        exact List.mem_cons_of_mem _ hq


theorem sortedPts_sorted (p : SimulationParams) :
    (sortedPts p).Sorted (fun a b => a ≤ b) :=
  List.sorted_insertionSort _ _

theorem sortedPts_perm (p : SimulationParams) :
    (sortedPts p).Perm (buildPts p).dedup :=
  List.perm_insertionSort _ _

theorem sortedPts_nodup (p : SimulationParams) : (sortedPts p).Nodup :=
  (sortedPts_perm p).nodup_iff.mpr (List.nodup_dedup _)

theorem sortedPts_mem (p : SimulationParams) (a : ℚ) :
    a ∈ sortedPts p ↔ a ∈ buildPts p :=
  ((sortedPts_perm p).mem_iff).trans (List.mem_dedup)

theorem sortedPts_strict (p : SimulationParams) :
    (sortedPts p).Pairwise (fun a b => a < b) :=
  ((sortedPts_sorted p).and (sortedPts_nodup p)).imp
    fun h => lt_of_le_of_ne h.1 h.2

theorem zero_mem_buildPts (p : SimulationParams) : (0 : ℚ) ∈ buildPts p := by
  simp [buildPts]

theorem length_mem_buildPts (p : SimulationParams) : p.length ∈ buildPts p := by
  simp [buildPts]


/-- C5 (amended): provided every split point (beam ends, supports, load
discontinuities) lies in [0, L] and distinct split points are at least 0.01
apart (so the builder's skip threshold never drops a segment; the original
claim fails without this, see the counterexample), the PiecewiseSegment list
is a contiguous, strictly increasing chain that starts at 0, ends at L, has
boundaries only at split points, and covers all of [0, L]. -/
theorem claim_C5_segment_coverage (p : SimulationParams) (r : Reactions)
    (hin : ∀ q ∈ buildPts p, 0 ≤ q ∧ q ≤ p.length)
    (hgap : ∀ q ∈ buildPts p, ∀ q' ∈ buildPts p, q ≠ q' → 1 / 100 ≤ |q - q'|)
    (hL : p.length ≠ 0) :
    (∃ s0, (generateDetailedSteps p r).head? = some s0 ∧ s0.xA = 0)
    ∧ (∃ sl, (generateDetailedSteps p r).getLast? = some sl ∧ sl.xB = p.length)
    ∧ List.Chain' (fun s t => s.xB = t.xA) (generateDetailedSteps p r)
    ∧ (∀ s ∈ generateDetailedSteps p r,
        s.xA < s.xB ∧ s.xA ∈ buildPts p ∧ s.xB ∈ buildPts p)
    ∧ (∀ x : ℚ, 0 ≤ x → x ≤ p.length →
        ∃ s ∈ generateDetailedSteps p r, s.xA ≤ x ∧ x ≤ s.xB) := by
  have h0mem : (0:ℚ) ∈ sortedPts p := (sortedPts_mem p 0).mpr (zero_mem_buildPts p)
  have hLmem : p.length ∈ sortedPts p := (sortedPts_mem p _).mpr (length_mem_buildPts p)
  have hne0 : sortedPts p ≠ [] := List.ne_nil_of_mem h0mem
  obtain ⟨a, tl, hsp⟩ := List.exists_cons_of_ne_nil hne0
  have ha0 : a = 0 := by
    have hsort := sortedPts_sorted p
    rw [hsp] at hsort h0mem
    have hamem : a ∈ buildPts p := by
      rw [← sortedPts_mem p a, hsp]
      exact List.mem_cons_self a tl
    have h0le : 0 ≤ a := (hin a hamem).1
    rcases List.mem_cons.mp h0mem with h | h
    · exact h.symm
    · have h2 := List.rel_of_sorted_cons hsort 0 h
      linarith
  subst ha0
  have hLtl : p.length ∈ tl := by
    rw [hsp] at hLmem
    rcases List.mem_cons.mp hLmem with h | h
    · exact absurd h hL
    · exact h
  obtain ⟨b, tl2, htl⟩ := List.exists_cons_of_ne_nil (List.ne_nil_of_mem hLtl)
  have hsp2 : sortedPts p = (0:ℚ) :: b :: tl2 := by rw [hsp, htl]
  have hallmem : ∀ z ∈ (0:ℚ) :: b :: tl2, z ∈ buildPts p := by
    intro z hz
    rw [← sortedPts_mem p z, hsp2]
    exact hz
  have hlast2 : ((0:ℚ) :: b :: tl2).getLast (by simp) = p.length := by
    apply le_antisymm
    · exact (hin _ (hallmem _ (List.getLast_mem (by simp)))).2
    · exact sorted_le_getLast ((0:ℚ) :: b :: tl2) (by simp) (hsp2 ▸ sortedPts_sorted p)
        p.length (hsp2 ▸ hLmem)
  have hkeep : ∀ q ∈ (sortedPts p).zip (sortedPts p).tail, ¬ |q.1 - q.2| < 1 / 100 := by
    intro q hq
    have hlt : q.1 < q.2 := pairwise_zip_tail (sortedPts_strict p) q hq
    have hm := List.of_mem_zip hq
    have h1 : q.1 ∈ buildPts p := (sortedPts_mem p _).mp hm.1
    have h2 : q.2 ∈ buildPts p := (sortedPts_mem p _).mp (List.mem_of_mem_tail hm.2)
    exact not_lt.mpr (hgap q.1 h1 q.2 h2 (ne_of_lt hlt))
  have hsegs : generateDetailedSteps p r
      = ((sortedPts p).zip (sortedPts p).tail).map
          (fun q => { xA := q.1, xB := q.2, poly := getPolynomial q.1 q.2 p r }) := by
    unfold generateDetailedSteps
    exact filterMap_keep_all _ _ _ hkeep
  refine ⟨?_, ?_, ?_, ?_, ?_⟩
  · rw [hsegs, hsp2]
    simp only [List.tail_cons, List.zip_cons_cons, List.map_cons, List.head?_cons]
    exact ⟨_, rfl, rfl⟩
  · rw [hsegs, hsp2, List.tail_cons]
    obtain ⟨c, hc⟩ := zip_tail_getLast tl2 0 b
    rw [List.getLast?_map, hc]
    refine ⟨_, rfl, ?_⟩
    show (b :: tl2).getLast (by simp) = p.length
    have h3 : ((0:ℚ) :: b :: tl2).getLast (by simp) = (b :: tl2).getLast (by simp) :=
      List.getLast_cons (by simp)
    rw [← h3]
    exact hlast2
  · rw [hsegs]
    rw [List.chain'_map]
    exact zip_tail_chain (sortedPts p)
  · rw [hsegs]
    intro s hs
    obtain ⟨q, hq, rfl⟩ := List.mem_map.mp hs
    have hlt : q.1 < q.2 := pairwise_zip_tail (sortedPts_strict p) q hq
    have hm := List.of_mem_zip hq
    exact ⟨hlt, (sortedPts_mem p _).mp hm.1,
      (sortedPts_mem p _).mp (List.mem_of_mem_tail hm.2)⟩
  · intro x hx0 hxL
    obtain ⟨q, hq, hq1, hq2⟩ := zip_cover tl2 0 b x hx0 (by rw [hlast2]; exact hxL)
    refine ⟨{ xA := q.1, xB := q.2, poly := getPolynomial q.1 q.2 p r }, ?_, hq1, hq2⟩
    rw [hsegs, hsp2]
    apply List.mem_map_of_mem
    simpa using hq


/-- C5 witness: for scenario A (split points 0, 4, 8, all at least 0.01
apart) the segment list is a contiguous chain and covers, e.g., x = 3. -/
theorem claim_C5_segment_coverage_witness :
    List.Chain' (fun s t => s.xB = t.xA) (generateDetailedSteps cfgA (calcReactions cfgA))
    ∧ ∃ s ∈ generateDetailedSteps cfgA (calcReactions cfgA), s.xA ≤ 3 ∧ 3 ≤ s.xB := by
  have hb : buildPts cfgA = [0, 8, 4] := by
    norm_num [buildPts, resolvedLoads, cfgA]
  have h := claim_C5_segment_coverage cfgA (calcReactions cfgA)
    (by
      intro q hq
      rw [hb] at hq
      fin_cases hq <;> norm_num [cfgA])
    (by
      intro q hq q' hq' hne
      rw [hb] at hq hq'
      fin_cases hq <;> fin_cases hq' <;>
        first
          | exact absurd rfl hne
          | norm_num)
    (by norm_num [cfgA])
  exact ⟨h.2.2.1, h.2.2.2.2 3 (by norm_num) (by norm_num [cfgA])⟩

/-- C5 counterexample: with a point load at x = 0.005 on a beam [0, 1], the
builder's 0.01 skip threshold drops the segment [0, 0.005]: the produced
list is the single segment [0.005, 1], whose union does not contain 0 — the
segments neither start at 0 nor span [0, L]. -/
theorem claim_C5_segment_coverage_cex :
    (generateDetailedSteps cfgTiny (calcReactions cfgTiny)).map
        (fun s => (s.xA, s.xB)) = [(1/200, 1)]
    ∧ ∀ s ∈ generateDetailedSteps cfgTiny (calcReactions cfgTiny),
        ¬ (s.xA ≤ 0 ∧ 0 ≤ s.xB) := by
  have h1 : buildPts cfgTiny = [0, 1, 1/200] := by
    norm_num [buildPts, resolvedLoads, cfgTiny, cfgA]
  have h2 : (buildPts cfgTiny).dedup = [0, 1, 1/200] := by
    rw [h1]
    norm_num [List.dedup_cons_of_not_mem]
  have h3 : sortedPts cfgTiny = [0, 1/200, 1] := by
    unfold sortedPts
    rw [h2]
    norm_num [List.insertionSort, List.orderedInsert]
  have h4 : generateDetailedSteps cfgTiny (calcReactions cfgTiny)
      = [{ xA := 1/200, xB := 1,
           poly := getPolynomial (1/200) 1 cfgTiny (calcReactions cfgTiny) }] := by
    have c1 : |(1:ℚ) / 200| < 1 / 100 := by
      rw [abs_of_nonneg (by norm_num)]
      norm_num
    have c2 : ¬ |(199:ℚ) / 200| < 1 / 100 := by
      rw [abs_of_nonneg (by norm_num)]
      norm_num
    unfold generateDetailedSteps
    rw [h3]
    norm_num [List.filterMap_cons, c1, c2]
  rw [h4]
  refine ⟨by norm_num, ?_⟩
  intro s hs
  rw [List.mem_singleton] at hs
  subst hs
  norm_num

end BeamSim
